import Mathlib

/-!
Verification development for the monetization pipeline of this repository
(`src/utils.ts`).  JavaScript strings are modelled as `List Char` (named
`Str` below); the UTF-16 details are irrelevant to the claims except for
`SecureStorage`, which is modelled over raw char codes (`List Nat`).
All definitions are shallow embeddings of the corresponding TypeScript
functions; impure boundaries (network, DOM, AI completion, `Math.random`,
`Date.now`, `localStorage`) are passed in as explicit parameters.
-/

namespace AmzPilot

abbrev Str := List Char

/-- Does `pat` occur at the start of `s`? (Model of anchored string match.) -/
def strStarts : Str → Str → Bool
  | [], _ => true
  | _ :: _, [] => false
  | p :: pt, c :: ct => p == c && strStarts pt ct

/-- Model of JavaScript `String.prototype.includes`.  (Defined through
`List.rec` so that kernel evaluation stays lazy on long strings; the
defining equations are `strContains_nil` and `strContains_cons`.) -/
def strContains (pat : Str) (s : Str) : Bool :=
  List.rec (strStarts pat []) (fun c t ih => strStarts pat (c :: t) || ih) s

theorem strContains_nil (pat : Str) : strContains pat [] = strStarts pat [] := rfl

theorem strContains_cons (pat : Str) (c : Char) (t : Str) :
    strContains pat (c :: t) = (strStarts pat (c :: t) || strContains pat t) := rfl

/-- One `unit` per (possibly overlapping) occurrence of `pat` in `s`.
A lazily-consumed list keeps kernel evaluation shallow; the defining
equations are `occList_nil` and `occList_cons`. -/
def occList (pat : Str) (s : Str) : List Unit :=
  List.rec (if strStarts pat [] then [()] else [])
    (fun c t ih => if strStarts pat (c :: t) then () :: ih else ih) s

theorem occList_nil (pat : Str) :
    occList pat [] = if strStarts pat [] then [()] else [] := rfl

theorem occList_cons (pat : Str) (c : Char) (t : Str) :
    occList pat (c :: t) =
      if strStarts pat (c :: t) then () :: occList pat t else occList pat t := rfl

/-- Number of (possibly overlapping) occurrences of `pat` in `s`. -/
def countOcc (pat s : Str) : Nat := (occList pat s).length

/-- ASCII lowercasing of one char, as JavaScript `toLowerCase` acts on
the characters relevant here. -/
def lowerChar (c : Char) : Char :=
  if 65 ≤ c.toNat ∧ c.toNat ≤ 90 then Char.ofNat (c.toNat + 32) else c

def toLowerStr (s : Str) : Str := s.map lowerChar

/-- Case-insensitive anchored match (`pat` is given lowercase). -/
def strStartsCI : Str → Str → Bool
  | [], _ => true
  | _ :: _, [] => false
  | p :: pt, c :: ct => p == lowerChar c && strStartsCI pt ct

/-!
## PriorityClassifier (`calculatePostPriority`, src/utils.ts lines 87-114)
-/

inductive PostPriority | critical | high | medium | low
deriving DecidableEq, Repr

inductive PostType | review | listicle | info | unknown
deriving DecidableEq, Repr

inductive MonetizationStatus | monetized | opportunity
deriving DecidableEq, Repr

structure TriageResult where
  priority : PostPriority
  type : PostType
  status : MonetizationStatus
deriving DecidableEq, Repr

def litReview : Str := "review".data
def litVs : Str := " vs ".data
def litHandsOn : Str := "hands-on".data
def litGuide : Str := "guide".data
def litBuying : Str := "buying".data
def litBest : Str := "best".data
def litTopSp : Str := "top ".data
def litList : Str := "list".data
def litAmazonCom : Str := "amazon.com/".data
def litAmznTo : Str := "amzn.to/".data
def litTagEq : Str := "tag=".data

/-- `isReview` of `calculatePostPriority` (title keyword scan on the
lowercased title). -/
def isReviewTitle (title : Str) : Bool :=
  let lowerTitle := toLowerStr title
  strContains litReview lowerTitle || strContains litVs lowerTitle ||
    strContains litHandsOn lowerTitle || strContains litGuide lowerTitle ||
    strContains litBuying lowerTitle

/-- JavaScript `/^\d/.test(title)`. -/
def leadingDigit : Str → Bool
  | [] => false
  | c :: _ => 48 ≤ c.toNat && c.toNat ≤ 57

/-- `isListicle` of `calculatePostPriority`. -/
def isListicleTitle (title : Str) : Bool :=
  let lowerTitle := toLowerStr title
  leadingDigit title || strContains litBest lowerTitle ||
    strContains litTopSp lowerTitle || strContains litList lowerTitle

/-- The affiliate-marker regex `/amazon\.com\/|amzn\.to\/|tag=/i`
(case-insensitive substring test). -/
def hasAffiliateMarkers (html : Str) : Bool :=
  let lh := toLowerStr html
  strContains litAmazonCom lh || strContains litAmznTo lh || strContains litTagEq lh

/-- Model of `checkForAffiliateLinks` (src/utils.ts lines 145-148). -/
def checkForAffiliateLinks (html : Str) : Bool :=
  if html = [] then false else hasAffiliateMarkers html

/-- Model of `calculatePostPriority` (src/utils.ts lines 87-114); the
omitted `html` argument defaults to the empty string. -/
def calculatePostPriority (title : Str) (html : Str) : TriageResult :=
  let isReview := isReviewTitle title
  let isListicle := isListicleTitle title
  let type : PostType := if isReview then .review else if isListicle then .listicle else .info
  if html.isEmpty then
    if isReview || isListicle then ⟨.high, type, .opportunity⟩
    else ⟨.low, type, .opportunity⟩
  else
    let hasLinks := hasAffiliateMarkers html
    let status : MonetizationStatus := if hasLinks then .monetized else .opportunity
    let priority : PostPriority :=
      if (isReview || isListicle) && !hasLinks then .critical
      else if (isReview || isListicle) && hasLinks then .medium
      else if !hasLinks && decide (html.length > 1500) then .high
      else .low
    ⟨priority, type, status⟩

def cexTitleC3 : Str := "best review".data

/-- C3 counterexample: the title "best review" satisfies the claim's
hypothesis (contains "best"), yet `calculatePostPriority` classifies it
as `review`, not `listicle`, because review keywords are tested first. -/
theorem calculatePostPriority_listicle_cex :
    isListicleTitle cexTitleC3 = true ∧
      ¬ ((calculatePostPriority cexTitleC3 []).type = PostType.listicle ∧
          (calculatePostPriority cexTitleC3 []).priority = PostPriority.high) := by
  decide

/-- C3 (amended): for every title with a listicle indicator (leading
numeral or containing "best"/"top "/"list") that matches no review-like
phrase, `calculatePostPriority` with no HTML returns
`contentType = listicle` and `priority = high`. -/
theorem calculatePostPriority_listicle_high (title : Str)
    (hl : isListicleTitle title = true) (hr : isReviewTitle title = false) :
    calculatePostPriority title [] =
      ⟨PostPriority.high, PostType.listicle, MonetizationStatus.opportunity⟩ := by
  simp [calculatePostPriority, hl, hr, List.isEmpty]

def witTitleC3 : Str := "10 kitchen gadgets".data

/-- Witness for `calculatePostPriority_listicle_high` at a concrete title. -/
theorem calculatePostPriority_listicle_high_witness :
    isListicleTitle witTitleC3 = true ∧ isReviewTitle witTitleC3 = false ∧
      calculatePostPriority witTitleC3 [] =
        ⟨PostPriority.high, PostType.listicle, MonetizationStatus.opportunity⟩ :=
  ⟨by decide, by decide,
    calculatePostPriority_listicle_high witTitleC3 (by decide) (by decide)⟩

/-- C8: review keywords take precedence over listicle indicators: a title
matching both is classified `contentType = review`. -/
theorem calculatePostPriority_review_precedence (title html : Str)
    (hr : isReviewTitle title = true) (hl : isListicleTitle title = true) :
    (calculatePostPriority title html).type = PostType.review := by
  unfold calculatePostPriority
  cases h : html.isEmpty <;> simp [hr, hl]

def witTitleC8 : Str := "7 best buying tips".data

/-- Witness for `calculatePostPriority_review_precedence`. -/
theorem calculatePostPriority_review_precedence_witness :
    isReviewTitle witTitleC8 = true ∧ isListicleTitle witTitleC8 = true ∧
      (calculatePostPriority witTitleC8 []).type = PostType.review :=
  ⟨by decide, by decide,
    calculatePostPriority_review_precedence witTitleC8 [] (by decide) (by decide)⟩

/-- C4: with non-empty HTML, `monetizationStatus = monetized` iff the HTML
matches the affiliate-marker pattern, and a review/listicle page without
markers gets priority `critical`. -/
theorem calculatePostPriority_phase2 (title html : Str) (hne : html ≠ []) :
    (((calculatePostPriority title html).status = MonetizationStatus.monetized) ↔
        hasAffiliateMarkers html = true) ∧
      (hasAffiliateMarkers html = false →
        ((calculatePostPriority title html).type = PostType.review ∨
            (calculatePostPriority title html).type = PostType.listicle) →
        (calculatePostPriority title html).priority = PostPriority.critical) := by
  have hemp : html.isEmpty = false := by
    cases html with
    | nil => exact absurd rfl hne
    | cons c t => rfl
  unfold calculatePostPriority
  cases hr : isReviewTitle title <;> cases hl : isListicleTitle title <;>
    cases hm : hasAffiliateMarkers html <;>
      simp [hemp, hr, hl, hm]

def witTitleC4 : Str := "air fryer review".data
def witHtmlC4 : Str := "<p>no links here</p>".data

/-- Witness for `calculatePostPriority_phase2`: a review-titled page with
marker-free HTML is `opportunity` and `critical`. -/
theorem calculatePostPriority_phase2_witness :
    witHtmlC4 ≠ [] ∧
      ¬ ((calculatePostPriority witTitleC4 witHtmlC4).status = MonetizationStatus.monetized) ∧
      (calculatePostPriority witTitleC4 witHtmlC4).priority = PostPriority.critical := by
  have h := calculatePostPriority_phase2 witTitleC4 witHtmlC4 (by decide)
  refine ⟨by decide, fun hmon => ?_, h.2 (by decide) (Or.inl (by decide))⟩
  have := h.1.mp hmon
  exact absurd this (by decide)

/-!
## ConcurrentTaskRunner (`runConcurrent`, src/utils.ts lines 150-172)

Workers are modelled as `T → Except E (Option R)`: a thrown rejection is
`Except.error` (caught by the `try`/`catch` and mapped to `null`), while a
resolved promise carries `Option R` (`none` models a resolved `null`).
The inter-window `sleep(50)` is a pure timing effect and has no
observable counterpart here.  Note the source loop `i += concurrency`
never terminates when `concurrency = 0`; the model is only meaningful for
a positive concurrency limit, which all claims assume.
-/

def chunksOf {α : Type _} : Nat → List α → List (List α)
  | _, [] => []
  | 0, _ :: _ => []
  | n + 1, x :: xs => ((x :: xs).take (n + 1)) :: chunksOf (n + 1) ((x :: xs).drop (n + 1))
termination_by _ l => l.length
decreasing_by simp [List.length_drop]; omega

/-- One chunk slot of `runConcurrent`: `try { return await fn(item) }
catch { return null }`. -/
def workerOutcome {T E R : Type _} (fn : T → Except E (Option R)) (it : T) : Option R :=
  match fn it with
  | .ok r => r
  | .error _ => none

/-- Model of `runConcurrent`: process the queue in windows of
`concurrency` items, keep the non-`null` outcomes of each window. -/
def runConcurrent {T E R : Type _} (items : List T) (concurrency : Nat)
    (fn : T → Except E (Option R)) : List R :=
  ((chunksOf concurrency items).map
    (fun chunk => (chunk.map (workerOutcome fn)).filterMap id)).flatten

theorem chunksOf_flatten {α : Type _} (N : Nat) (l : List α) :
    (chunksOf (N + 1) l).flatten = l := by
  cases l with
  | nil => simp [chunksOf]
  | cons c t =>
      rw [chunksOf, List.flatten_cons,
        chunksOf_flatten N ((c :: t).drop (N + 1)), List.take_append_drop]
termination_by l.length
decreasing_by simp [List.length_drop]; omega

theorem chunksOf_length_le {α : Type _} (N : Nat) (l : List α) :
    ∀ c ∈ chunksOf (N + 1) l, c.length ≤ N + 1 := by
  cases l with
  | nil => intro c hc; simp [chunksOf] at hc
  | cons x t =>
      intro c hc
      rw [chunksOf] at hc
      rcases List.mem_cons.mp hc with hc | hc
      · subst hc
        simp
      · exact chunksOf_length_le N ((x :: t).drop (N + 1)) c hc
termination_by l.length
decreasing_by simp [List.length_drop]; omega

theorem flatten_map_filterMap {α β : Type _} (g : α → Option β) (cs : List (List α)) :
    (cs.map (fun c => c.filterMap g)).flatten = cs.flatten.filterMap g := by
  induction cs with
  | nil => rfl
  | cons c t ih =>
      rw [List.map_cons, List.flatten_cons, List.flatten_cons, List.filterMap_append, ih]

theorem runConcurrent_eq_filterMap {T E R : Type _} (items : List T) (n : Nat)
    (fn : T → Except E (Option R)) (hn : 0 < n) :
    runConcurrent items n fn = items.filterMap (workerOutcome fn) := by
  obtain ⟨N, rfl⟩ : ∃ N, n = N + 1 := ⟨n - 1, by omega⟩
  unfold runConcurrent
  have hfun : (fun chunk : List T => (chunk.map (workerOutcome fn)).filterMap id) =
      fun chunk => chunk.filterMap (workerOutcome fn) := by
    funext c
    rw [List.filterMap_map]
    rfl
  rw [hfun, flatten_map_filterMap, chunksOf_flatten]

/-- C5: `runConcurrent` partitions the items into sequential windows of at
most `N` items (so at most `N` workers are in flight at once), the windows
cover the item list in order, and the result is exactly the item list
filtered through the per-item worker outcome — a thrown worker is caught
and only its own item is dropped. -/
theorem runConcurrent_windows {T E R : Type _} (items : List T) (n : Nat)
    (fn : T → Except E (Option R)) (hn : 0 < n) :
    (∀ c ∈ chunksOf n items, c.length ≤ n) ∧
      (chunksOf n items).flatten = items ∧
      runConcurrent items n fn = items.filterMap (workerOutcome fn) := by
  obtain ⟨N, rfl⟩ : ∃ N, n = N + 1 := ⟨n - 1, by omega⟩
  exact ⟨chunksOf_length_le N items, chunksOf_flatten N items,
    runConcurrent_eq_filterMap items (N + 1) fn hn⟩

def witWorkerC5 (k : Nat) : Except Unit (Option Nat) :=
  if k = 1 then Except.error () else Except.ok (some (k * 10))

/-- Witness for `runConcurrent_windows`: three items, window size 2, the
middle worker throws and only its result is missing. -/
theorem runConcurrent_windows_witness :
    (∀ c ∈ chunksOf 2 [0, 1, 2], c.length ≤ 2) ∧
      (chunksOf 2 [0, 1, 2]).flatten = [0, 1, 2] ∧
      runConcurrent [0, 1, 2] 2 witWorkerC5 = [0, 1, 2].filterMap (workerOutcome witWorkerC5) :=
  runConcurrent_windows [0, 1, 2] 2 witWorkerC5 (by decide)

theorem length_filterMap_lt {α β : Type _} (g : α → Option β) (l : List α)
    (h : ∃ x ∈ l, g x = none) : (l.filterMap g).length < l.length := by
  induction l with
  | nil => simp at h
  | cons c t ih =>
      rcases h with ⟨x, hx, hgx⟩
      rcases List.mem_cons.mp hx with hx | hx
      · subst hx
        rw [List.filterMap_cons, hgx]
        have := List.length_filterMap_le g t
        simpa using Nat.lt_succ_of_le this
      · rw [List.filterMap_cons]
        cases hgc : g c with
        | none =>
            have := List.length_filterMap_le g t
            simpa using Nat.lt_succ_of_le this
        | some b => simpa using ih ⟨x, hx, hgx⟩

/-- Replace a worker's resolved `null` by a rejection, leaving everything
else unchanged. -/
def nullsAsThrows {T E R : Type _} (fn : T → Except E (Option R)) (it : T) :
    Except Unit (Option R) :=
  match fn it with
  | .ok (some r) => .ok (some r)
  | _ => .error ()

/-- C10: a worker that resolves to `null` is excluded from the results
exactly as if it had thrown (replacing its `null` by a rejection changes
nothing), and such an item strictly shrinks the result list even when no
worker throws. -/
theorem runConcurrent_null_excluded {T E R : Type _} (items : List T) (n : Nat)
    (fn : T → Except E (Option R)) (hn : 0 < n) :
    runConcurrent items n fn = runConcurrent items n (nullsAsThrows fn) ∧
      ((∃ it ∈ items, fn it = Except.ok none) →
        (runConcurrent items n fn).length < items.length) := by
  constructor
  · rw [runConcurrent_eq_filterMap _ _ _ hn, runConcurrent_eq_filterMap _ _ _ hn]
    apply List.filterMap_congr
    intro it _
    unfold workerOutcome nullsAsThrows
    cases hfn : fn it with
    | ok r => cases r <;> simp [hfn]
    | error e => simp [hfn]
  · intro ⟨it, hit, hnull⟩
    rw [runConcurrent_eq_filterMap _ _ _ hn]
    exact length_filterMap_lt _ _ ⟨it, hit, by simp [workerOutcome, hnull]⟩

def witWorkerC10 (k : Nat) : Except Unit (Option Nat) :=
  Except.ok (if k = 1 then none else some k)

/-- Witness for `runConcurrent_null_excluded`: no worker throws, item 1
resolves to `null`, and the result list is shorter than the item list. -/
theorem runConcurrent_null_excluded_witness :
    runConcurrent [0, 1, 2] 2 witWorkerC10 =
        runConcurrent [0, 1, 2] 2 (nullsAsThrows witWorkerC10) ∧
      (runConcurrent [0, 1, 2] 2 witWorkerC10).length < 3 := by
  have h := runConcurrent_null_excluded [0, 1, 2] 2 witWorkerC10 (by decide)
  exact ⟨h.1, h.2 ⟨1, by decide, rfl⟩⟩

/-!
## CacheService (src/utils.ts lines 26-68)

`localStorage` is modelled as an association list from keys to
already-parsed `{timestamp, data}` entries (`JSON.stringify`/`parse`
round-trip through storage is the identity on well-formed entries).
`Date.now()` is an explicit `now : Nat` parameter.  JavaScript computes
`Date.now() - parsed.timestamp > ttl` on signed numbers; for a timestamp
in the future the difference is negative and the comparison is false,
which truncated `Nat` subtraction reproduces.  The capacity-overflow
branch of `set` (clear everything, retry once) has no counterpart in an
unbounded store.
-/

def CACHE_TTLS_CONTENT : Nat := 1000 * 60 * 30
def CACHE_TTLS_AI : Nat := 1000 * 60 * 60 * 24 * 7
def CACHE_TTLS_SITEMAP : Nat := 1000 * 60 * 60

structure CacheEntry (α : Type _) where
  timestamp : Nat
  data : α
deriving DecidableEq, Repr

abbrev CacheStore (α : Type _) := List (Str × CacheEntry α)

def storeLookup {α : Type _} (key : Str) : CacheStore α → Option (CacheEntry α)
  | [] => none
  | (k, e) :: t => if k = key then some e else storeLookup key t

def storeErase {α : Type _} (key : Str) : CacheStore α → CacheStore α
  | [] => []
  | (k, e) :: t => if k = key then storeErase key t else (k, e) :: storeErase key t

def litAiPre : Str := ['a', 'i', '_']
def litWpPre : Str := ['w', 'p', '_']

/-- TTL class selection of `CacheService.get` (key-prefix convention). -/
def ttlFor (key : Str) : Nat :=
  if strStarts litAiPre key then CACHE_TTLS_AI
  else if strStarts litWpPre key then CACHE_TTLS_CONTENT
  else CACHE_TTLS_SITEMAP

/-- Model of `CacheService.get`: expired entries are removed and report a
miss; the (possibly updated) store is returned alongside. -/
def cacheGet {α : Type _} (store : CacheStore α) (now : Nat) (key : Str) :
    Option α × CacheStore α :=
  match storeLookup key store with
  | none => (none, store)
  | some e =>
      if now - e.timestamp > ttlFor key then (none, storeErase key store)
      else (some e.data, store)

/-- Model of `CacheService.set`: store the payload under `key` with the
current time as its timestamp. -/
def cacheSet {α : Type _} (store : CacheStore α) (now : Nat) (key : Str) (d : α) :
    CacheStore α :=
  (key, ⟨now, d⟩) :: storeErase key store

/-- C6: `get` returns `null` and deletes the entry once its age exceeds
the TTL of the class derived from the key prefix, and a later `set` under
the same key resets the age, so an immediately following `get` returns
the new payload. -/
theorem cacheService_ttl_expiry {α : Type _} (store : CacheStore α) (now ts : Nat)
    (key : Str) (d : α) (hl : storeLookup key store = some ⟨ts, d⟩)
    (hexp : ttlFor key < now - ts) :
    cacheGet store now key = (none, storeErase key store) ∧
      ∀ (d' : α) (now' : Nat),
        cacheGet (cacheSet store now' key d') now' key =
          (some d', cacheSet store now' key d') := by
  constructor
  · unfold cacheGet
    rw [hl]
    simp only [if_pos hexp]
  · intro d' now'
    unfold cacheGet cacheSet storeLookup
    simp [Nat.sub_self]

/-- Witness for `cacheService_ttl_expiry`: a `wp_`-class entry written at
time 0 read 31 minutes later. -/
theorem cacheService_ttl_expiry_witness :
    cacheGet [(['w', 'p', '_', 'x'], (⟨0, 7⟩ : CacheEntry Nat))] 1860000 ['w', 'p', '_', 'x'] =
        (none, storeErase ['w', 'p', '_', 'x'] [(['w', 'p', '_', 'x'], (⟨0, 7⟩ : CacheEntry Nat))]) ∧
      ∀ (d' : Nat) (now' : Nat),
        cacheGet (cacheSet [(['w', 'p', '_', 'x'], (⟨0, 7⟩ : CacheEntry Nat))] now' ['w', 'p', '_', 'x'] d')
            now' ['w', 'p', '_', 'x'] =
          (some d', cacheSet [(['w', 'p', '_', 'x'], (⟨0, 7⟩ : CacheEntry Nat))] now' ['w', 'p', '_', 'x'] d') :=
  cacheService_ttl_expiry _ 1860000 0 _ 7 (by decide) (by decide)

/-!
## `generateHash` and `fetchPageContent` (src/utils.ts lines 58-67, 251-278)

The network fetch and DOM extraction of `fetchPageContent` are impure;
the extracted `{id, title, content}` triple is passed in as a parameter,
and the function's caching behaviour around it is modelled exactly.
-/

/-- JavaScript `| 0` (ToInt32). -/
def toInt32 (n : Int) : Int :=
  let m := n % 4294967296
  if m < 2147483648 then m else m - 4294967296

/-- One step of the `generateHash` loop:
`hash = ((hash << 5) - hash) + char; hash |= 0`.  The `<<` operator
already wraps its result to a signed 32-bit integer. -/
def hashStep (h : Int) (c : Nat) : Int := toInt32 (toInt32 (h * 32) - h + c)

def natDecDigits : Nat → Str
  | n =>
    if h : n < 10 then [Char.ofNat (48 + n)]
    else natDecDigits (n / 10) ++ [Char.ofNat (48 + n % 10)]
termination_by n => n
decreasing_by omega

/-- Decimal rendering of a signed integer (JavaScript `Number.toString`
on int32 values). -/
def intDecStr (n : Int) : Str :=
  if n < 0 then '-' :: natDecDigits n.natAbs else natDecDigits n.toNat

/-- Model of `CacheService.generateHash`. -/
def generateHash (s : Str) : Str :=
  if s.length = 0 then ['0']
  else intDecStr (s.foldl (fun h c => hashStep h c.toNat) 0)

def litScrapePre : Str := ['s', 'c', 'r', 'a', 'p', 'e', '_']

/-- The cache key `scrape_${CacheService.generateHash(url)}` of
`fetchPageContent`. -/
def scrapeKey (url : Str) : Str := litScrapePre ++ generateHash url

structure PageExtract where
  id : Nat
  title : Str
  content : Str
deriving DecidableEq, Repr

/-- Model of `fetchPageContent`: serve from cache when possible,
otherwise take the freshly extracted page and cache it only when its
content exceeds 500 characters. -/
def fetchPageContent (url : Str) (extract : PageExtract)
    (store : CacheStore PageExtract) (now : Nat) :
    PageExtract × CacheStore PageExtract :=
  match cacheGet store now (scrapeKey url) with
  | (some cached, store') => (cached, store')
  | (none, store') =>
      if extract.content.length > 500 then
        (extract, cacheSet store' now (scrapeKey url) extract)
      else (extract, store')

def cexUrlC7 : Str := "https://example.com/a-post".data

/-- C7 counterexample: the cache key of `fetchPageContent` starts with
`scrape_`, which matches neither the `ai_` nor the `wp_` prefix, so the
entry gets the sitemap/default TTL class (1 hour), not the "content"
class (30 minutes) the claim asserts. -/
theorem fetchPageContent_ttl_cex :
    ttlFor (scrapeKey cexUrlC7) = CACHE_TTLS_SITEMAP ∧
      ¬ ttlFor (scrapeKey cexUrlC7) = CACHE_TTLS_CONTENT := by
  decide

theorem ttlFor_scrapeKey (url : Str) : ttlFor (scrapeKey url) = CACHE_TTLS_SITEMAP := by
  have h1 : strStarts litAiPre (scrapeKey url) = false := by
    simp [scrapeKey, litScrapePre, litAiPre, strStarts]
  have h2 : strStarts litWpPre (scrapeKey url) = false := by
    simp [scrapeKey, litScrapePre, litWpPre, strStarts]
  simp [ttlFor, h1, h2]

/-- C7 (amended): on a cache miss, `fetchPageContent` caches the
extracted result under the URL-hash key exactly when the extracted
content exceeds 500 characters (smaller results are returned but never
cached) — but the `scrape_` key prefix places the entry in the
sitemap/default TTL class (1 hour), not the "content" class. -/
theorem fetchPageContent_caching (url : Str) (extract : PageExtract)
    (store : CacheStore PageExtract) (now : Nat)
    (hmiss : storeLookup (scrapeKey url) store = none) :
    fetchPageContent url extract store now =
        (extract,
          if extract.content.length > 500 then cacheSet store now (scrapeKey url) extract
          else store) ∧
      ttlFor (scrapeKey url) = CACHE_TTLS_SITEMAP := by
  refine ⟨?_, ttlFor_scrapeKey url⟩
  unfold fetchPageContent cacheGet
  rw [hmiss]
  by_cases h : extract.content.length > 500 <;> simp [h]

/-- Witness for `fetchPageContent_caching`: an empty store, a short
extraction (not cached) — evaluated at a concrete URL. -/
theorem fetchPageContent_caching_witness :
    fetchPageContent cexUrlC7 ⟨3, ['t'], ['x']⟩ [] 5 =
        (⟨3, ['t'], ['x']⟩,
          if (['x'] : Str).length > 500 then cacheSet [] 5 (scrapeKey cexUrlC7) ⟨3, ['t'], ['x']⟩
          else []) ∧
      ttlFor (scrapeKey cexUrlC7) = CACHE_TTLS_SITEMAP :=
  fetchPageContent_caching cexUrlC7 ⟨3, ['t'], ['x']⟩ [] 5 rfl

/-!
## SecureStorage (src/utils.ts lines 8-21)

JavaScript strings are sequences of UTF-16 code units; `charCodeAt`,
`fromCharCode`, `btoa` and `atob` act on those codes, so this component
is modelled over `List Nat`.  `btoa` throws (and the `catch` returns the
input unchanged) exactly when some code unit exceeds 255; XOR with
`i % 255` preserves the 0..255 range, so the check is made on the XORed
sequence as `btoa` sees it.  `atob` is modelled as the strict base64
decoder; on any input it cannot decode, `decrypt`'s `catch` returns the
cipher unchanged.
-/

def b64chars : List Nat :=
  (List.range 26).map (65 + ·) ++ (List.range 26).map (97 + ·) ++
    (List.range 10).map (48 + ·) ++ [43, 47]

def encChar (n : Nat) : Nat := b64chars.getD n 0

def decChar (c : Nat) : Option Nat := b64chars.indexOf? c

def b64encode : List Nat → List Nat
  | [] => []
  | [a] => [encChar (a / 4), encChar (a % 4 * 16), 61, 61]
  | [a, b] => [encChar (a / 4), encChar (a % 4 * 16 + b / 16), encChar (b % 16 * 4), 61]
  | a :: b :: c :: rest =>
      encChar (a / 4) :: encChar (a % 4 * 16 + b / 16) :: encChar (b % 16 * 4 + c / 64) ::
        encChar (c % 64) :: b64encode rest

def b64decode : List Nat → Option (List Nat)
  | [] => some []
  | c1 :: c2 :: c3 :: c4 :: rest =>
      if rest = [] ∧ c3 = 61 ∧ c4 = 61 then
        match decChar c1, decChar c2 with
        | some s1, some s2 => some [s1 * 4 + s2 / 16]
        | _, _ => none
      else if rest = [] ∧ c4 = 61 then
        match decChar c1, decChar c2, decChar c3 with
        | some s1, some s2, some s3 => some [s1 * 4 + s2 / 16, s2 % 16 * 16 + s3 / 4]
        | _, _, _ => none
      else
        match decChar c1, decChar c2, decChar c3, decChar c4, b64decode rest with
        | some s1, some s2, some s3, some s4, some tl =>
            some ((s1 * 4 + s2 / 16) :: (s2 % 16 * 16 + s3 / 4) :: (s3 % 4 * 64 + s4) :: tl)
        | _, _, _, _, _ => none
  | _ => none

/-- The position-wise XOR obfuscation
`c.charCodeAt(0) ^ (i % 255)`, starting at index `i`. -/
def xorFrom (i : Nat) : List Nat → List Nat
  | [] => []
  | c :: t => (c ^^^ (i % 255)) :: xorFrom (i + 1) t

namespace SecureStorage

/-- Model of `SecureStorage.encrypt`. -/
def encrypt (text : List Nat) : List Nat :=
  if text = [] then []
  else if (xorFrom 0 text).all (· < 256) then b64encode (xorFrom 0 text)
  else text

/-- Model of `SecureStorage.decrypt`. -/
def decrypt (cipher : List Nat) : List Nat :=
  if cipher = [] then []
  else
    match b64decode cipher with
    | some bytes => xorFrom 0 bytes
    | none => cipher

end SecureStorage

theorem xorFrom_involutive (l : List Nat) : ∀ i, xorFrom i (xorFrom i l) = l := by
  induction l with
  | nil => intro i; rfl
  | cons c t ih =>
      intro i
      simp only [xorFrom, ih (i + 1)]
      rw [Nat.xor_cancel_right]

theorem xorFrom_lt_256 (l : List Nat) (h : ∀ x ∈ l, x < 256) :
    ∀ i, ∀ y ∈ xorFrom i l, y < 256 := by
  induction l with
  | nil => intro i y hy; simp [xorFrom] at hy
  | cons c t ih =>
      intro i y hy
      rcases List.mem_cons.mp hy with hy | hy
      · subst hy
        have hc : c < 2 ^ 8 := h c (List.mem_cons_self c t)
        have hm : i % 255 < 2 ^ 8 := by
          have := Nat.mod_lt i (y := 255) (by omega)
          omega
        exact Nat.xor_lt_two_pow hc hm
      · exact ih (fun x hx => h x (List.mem_cons_of_mem c hx)) (i + 1) y hy

theorem decChar_encChar : ∀ s, s < 64 → decChar (encChar s) = some s := by decide

theorem encChar_ne_61 : ∀ s, s < 64 → ¬ encChar s = 61 := by decide

theorem b64encode_ne_nil (l : List Nat) (h : l ≠ []) : b64encode l ≠ [] := by
  match l with
  | [] => exact absurd rfl h
  | [a] => simp [b64encode]
  | [a, b] => simp [b64encode]
  | a :: b :: c :: rest => simp [b64encode]

theorem b64_roundtrip (l : List Nat) : (∀ x ∈ l, x < 256) → b64decode (b64encode l) = some l :=
  match l with
  | [] => fun _ => rfl
  | [a] => fun h => by
      have ha : a < 256 := h a (by simp)
      rw [b64encode, b64decode, if_pos ⟨rfl, rfl, rfl⟩,
        decChar_encChar _ (by omega), decChar_encChar _ (by omega)]
      show some [a / 4 * 4 + a % 4 * 16 / 16] = some [a]
      have e1 : a / 4 * 4 + a % 4 * 16 / 16 = a := by omega
      rw [e1]
  | [a, b] => fun h => by
      have ha : a < 256 := h a (by simp)
      have hb : b < 256 := h b (by simp)
      rw [b64encode, b64decode,
        if_neg (fun hcon => encChar_ne_61 _ (by omega) hcon.2.1),
        if_pos ⟨rfl, rfl⟩, decChar_encChar _ (by omega), decChar_encChar _ (by omega),
        decChar_encChar _ (by omega)]
      show some [a / 4 * 4 + (a % 4 * 16 + b / 16) / 16,
          (a % 4 * 16 + b / 16) % 16 * 16 + b % 16 * 4 / 4] = some [a, b]
      have e1 : a / 4 * 4 + (a % 4 * 16 + b / 16) / 16 = a := by omega
      have e2 : (a % 4 * 16 + b / 16) % 16 * 16 + b % 16 * 4 / 4 = b := by omega
      rw [e1, e2]
  | a :: b :: c :: rest => fun h => by
      have ha : a < 256 := h a (by simp)
      have hb : b < 256 := h b (by simp)
      have hc : c < 256 := h c (by simp)
      have hrest : ∀ x ∈ rest, x < 256 := fun x hx => h x (by simp [hx])
      rw [b64encode, b64decode,
        if_neg (fun hcon => encChar_ne_61 _ (by omega) hcon.2.2),
        if_neg (fun hcon => encChar_ne_61 _ (by omega) hcon.2),
        decChar_encChar _ (by omega), decChar_encChar _ (by omega),
        decChar_encChar _ (by omega), decChar_encChar _ (by omega),
        b64_roundtrip rest hrest]
      show some ((a / 4 * 4 + (a % 4 * 16 + b / 16) / 16) ::
          ((a % 4 * 16 + b / 16) % 16 * 16 + (b % 16 * 4 + c / 64) / 4) ::
          ((b % 16 * 4 + c / 64) % 4 * 64 + c % 64) :: rest) = some (a :: b :: c :: rest)
      have e1 : a / 4 * 4 + (a % 4 * 16 + b / 16) / 16 = a := by omega
      have e2 : (a % 4 * 16 + b / 16) % 16 * 16 + (b % 16 * 4 + c / 64) / 4 = b := by omega
      have e3 : (b % 16 * 4 + c / 64) % 4 * 64 + c % 64 = c := by omega
      rw [e1, e2, e3]

/-- C9: for strings of Latin-1 code units, `decrypt ∘ encrypt` is the
identity (base64 of the position-wise XOR round-trips), and both
functions map the empty string to the empty string. -/
theorem secureStorage_roundtrip (s : List Nat) (h : ∀ x ∈ s, x < 256) :
    SecureStorage.decrypt (SecureStorage.encrypt s) = s ∧
      SecureStorage.encrypt [] = [] ∧ SecureStorage.decrypt [] = [] := by
  refine ⟨?_, rfl, rfl⟩
  by_cases hs : s = []
  · subst hs; rfl
  · unfold SecureStorage.encrypt
    rw [if_neg hs]
    have hall : (xorFrom 0 s).all (· < 256) = true := by
      rw [List.all_eq_true]
      intro y hy
      exact decide_eq_true (xorFrom_lt_256 s h 0 y hy)
    rw [if_pos hall]
    unfold SecureStorage.decrypt
    have hxne : xorFrom 0 s ≠ [] := by
      cases s with
      | nil => exact absurd rfl hs
      | cons c t => simp [xorFrom]
    rw [if_neg (b64encode_ne_nil _ hxne), b64_roundtrip _ (xorFrom_lt_256 s h 0)]
    exact xorFrom_involutive s 0

/-- Witness for `secureStorage_roundtrip` on a concrete Latin-1 string. -/
theorem secureStorage_roundtrip_witness :
    SecureStorage.decrypt (SecureStorage.encrypt [72, 101, 108, 108, 111, 33]) =
        [72, 101, 108, 108, 111, 33] ∧
      SecureStorage.encrypt [] = [] ∧ SecureStorage.decrypt [] = [] :=
  secureStorage_roundtrip [72, 101, 108, 108, 111, 33] (by decide)

/-!
## ProductIntelligence (`analyzeContentAndFindProduct`, src/utils.ts lines 414-551)

The network/AI boundary — `generateAIContent` with its retry wrapper,
the markdown-fence stripping and `JSON.parse` — is abstracted into one
`aiResult : Except Unit JsonData` parameter: `Except.error` models the
`catch` being reached (the AI call failed after all retries, or its
output could not be parsed as JSON), `Except.ok` carries the parsed JSON
value.  Parsed JSON fields are `Option`s, `none` modelling an absent
property; empty strings are separately falsy and handled by the `jsOr`/
`strTruthy` helpers.  Everything after that boundary — fallback
construction, image-priority resolution, field defaulting, the JSON-LD
blob — is modelled directly.  The function itself is total: it never
throws to its caller.
-/

/-- The JavaScript whitespace class (`\s`, also the set trimmed by
`String.prototype.trim`). -/
def isWsChar (c : Char) : Bool :=
  c = ' ' || c = '\t' || c = '\n' || c = '\r' || c.toNat = 11 || c.toNat = 12 ||
    c.toNat = 160 || c.toNat = 5760 || (8192 ≤ c.toNat && c.toNat ≤ 8202) ||
    c.toNat = 8232 || c.toNat = 8233 || c.toNat = 8239 || c.toNat = 8287 ||
    c.toNat = 12288 || c.toNat = 65279

/-- JavaScript `String.prototype.trim`. -/
def trimWs (s : Str) : Str :=
  ((s.dropWhile isWsChar).reverse.dropWhile isWsChar).reverse

/-- JavaScript `a || b` for strings (empty string is falsy). -/
def jsOr (o : Option Str) (d : Str) : Str :=
  match o with
  | some s => if s = [] then d else s
  | none => d

/-- Collapse a JavaScript-falsy string (absent or empty) to `none`. -/
def strTruthy : Option Str → Option Str
  | some s => if s = [] then none else some s
  | none => none

structure ProductDetails where
  asin : Str
  title : Str
  price : Str
  imageUrl : Str
  rating : ℚ
  prime : Bool
  description : Option Str
  pros : Option (List Str)
  cons : Option (List Str)
  award : Option Str
  verdict : Option Str
  specs : Option (List (Str × Str))
  lastUpdated : Option Nat
  url : Option Str
  schema : Option Str
  contextSnippet : Option Str
deriving DecidableEq, Repr

def litImgPre : Str := "https://images-na.ssl-images-amazon.com/images/P/".data
def litImgSuf : Str := ".01._SS500_.jpg".data

/-- Model of `constructAmazonImageUrl` (src/utils.ts lines 139-143). -/
def constructAmazonImageUrl (asin : Str) : Str :=
  if asin.length < 10 then []
  else litImgPre ++ trimWs asin ++ litImgSuf

def litHttp : Str := "http".data
def litDpSeg : Str := "/dp/".data
def litGpSeg : Str := "/gp/product/".data
def litAsinSeg : Str := "/asin/".data

def isAsinChar (c : Char) : Bool :=
  (65 ≤ c.toNat && c.toNat ≤ 90) || (97 ≤ c.toNat && c.toNat ≤ 122) ||
    (48 ≤ c.toNat && c.toNat ≤ 57)

/-- One anchored attempt of `/\/(?:dp|gp\/product|ASIN)\/([A-Z0-9]{10})/i`. -/
def asinAt (s : Str) : Option Str :=
  let tryAfter (n : Nat) : Option Str :=
    let cand := (s.drop n).take 10
    if cand.length = 10 && cand.all isAsinChar then some cand else none
  if strStartsCI litDpSeg s then tryAfter 4
  else if strStartsCI litGpSeg s then tryAfter 12
  else if strStartsCI litAsinSeg s then tryAfter 6
  else none

/-- Model of `extractAsinFromHtml` (src/utils.ts lines 130-135). -/
def extractAsinFromHtml : Str → Option Str
  | [] => none
  | s@(_ :: t) =>
      match asinAt s with
      | some a => some a
      | none => extractAsinFromHtml t

def hexDigit (n : Nat) : Char :=
  if n < 10 then Char.ofNat (48 + n) else Char.ofNat (87 + n)

/-- `JSON.stringify` escaping of one character. -/
def jsonEscapeChar (c : Char) : Str :=
  if c = '"' then ['\\', '"']
  else if c = '\\' then ['\\', '\\']
  else if c = '\n' then ['\\', 'n']
  else if c = '\r' then ['\\', 'r']
  else if c = '\t' then ['\\', 't']
  else if c.toNat = 8 then ['\\', 'b']
  else if c.toNat = 12 then ['\\', 'f']
  else if c.toNat < 32 then ['\\', 'u', '0', '0', hexDigit (c.toNat / 16), hexDigit (c.toNat % 16)]
  else [c]

def jsonEscape (s : Str) : Str := (s.map jsonEscapeChar).flatten

def fracDigits : Nat → Nat → Nat → Str
  | _, _, 0 => []
  | rem, d, fuel + 1 =>
      let r10 := rem * 10
      let dig := Char.ofNat (48 + r10 / d)
      if r10 % d = 0 then [dig] else dig :: fracDigits (r10 % d) d fuel

/-- Decimal rendering of a non-negative rational (how `JSON.stringify`
prints the number literals appearing here, e.g. `4.8`). -/
def ratStr (q : ℚ) : Str :=
  let n := q.num.natAbs
  let sign : Str := if q.num < 0 then ['-'] else []
  if n % q.den = 0 then sign ++ natDecDigits (n / q.den)
  else sign ++ natDecDigits (n / q.den) ++ '.' :: fracDigits (n % q.den) q.den 20

def isPriceChar (c : Char) : Bool := (48 ≤ c.toNat && c.toNat ≤ 57) || c = '.'

def jldA : Str := "\x7b\"@context\":\"https://schema.org/\",\"@type\":\"Product\",\"name\":\"".data
def jldB : Str := "\",\"image\":\"".data
def jldC : Str := "\",\"description\":\"".data
def jldD : Str := "\",\"brand\":\x7b\"@type\":\"Brand\",\"name\":\"Amazon\"\x7d,\"aggregateRating\":\x7b\"@type\":\"AggregateRating\",\"ratingValue\":".data
def jldE : Str := ",\"bestRating\":\"5\",\"ratingCount\":\"120\"\x7d,\"offers\":\x7b\"@type\":\"Offer\",\"url\":\"https://amazon.com/dp/".data
def jldF : Str := "\",\"priceCurrency\":\"USD\",\"price\":\"".data
def jldG : Str := "\",\"availability\":\"https://schema.org/InStock\"\x7d\x7d".data

/-- Model of `generateJsonLd` (src/utils.ts lines 387-410):
`JSON.stringify` of the schema object, in insertion order. -/
def generateJsonLd (product : ProductDetails) : Str :=
  jldA ++ jsonEscape product.title ++
    jldB ++ jsonEscape product.imageUrl ++
    jldC ++ jsonEscape (jsOr product.verdict product.title) ++
    jldD ++ ratStr product.rating ++
    jldE ++ jsonEscape product.asin ++
    jldF ++ jsonEscape (jsOr (some (product.price.filter isPriceChar)) "0.00".data) ++
    jldG

inductive AnalyzeMode | single | multi
deriving DecidableEq, Repr

structure AnalyzeOptions where
  manualAsin : Option Str
  manualImage : Option Str
  mode : Option AnalyzeMode
  fallbackImage : Option Str

/-- A parsed single-product JSON object; `none` = absent property. -/
structure AiJson where
  found : Option Bool
  confidence : Option Nat
  asin : Option Str
  productName : Option Str
  price : Option Str
  imageUrl : Option Str
  verdict : Option Str
  contextSnippet : Option Str
  award : Option Str
  pros : Option (List Str)
  cons : Option (List Str)
  specs : Option (List (Str × Str))
deriving DecidableEq, Repr

inductive JsonData
  | obj (o : AiJson)
  | arr (l : List AiJson)
deriving DecidableEq, Repr

def emptyAiJson : AiJson :=
  ⟨none, none, none, none, none, none, none, none, none, none, none, none⟩

/-- JavaScript property access on a value that may be an array (all the
accessed properties are then `undefined`). -/
def asObj : JsonData → AiJson
  | .obj o => o
  | .arr _ => emptyAiJson

structure AnalyzeResult where
  product : Option ProductDetails
  detectedProducts : List ProductDetails
  confidence : Nat
deriving DecidableEq, Repr

def strPlaceholder : Str := "https://placehold.co/500?text=Product".data
def strAmazonProduct : Str := "Amazon Product (Check Details)".data
def strDetectedProduct : Str := "Detected Product".data
def strCheckPrice : Str := "Check Price".data
def strVerifiedQuality : Str := "Verified Quality".data
def strFastShipping : Str := "Fast Shipping".data
def strTopPick : Str := "Top Pick".data
def strSolidChoice : Str := "A solid choice based on current specifications.".data
def strUnknownProduct : Str := "Unknown Product".data
def strHighQuality : Str := "High Quality".data
def strGreatValue : Str := "Great Value".data
def strDefaultVerdict : Str :=
  "This product delivers outstanding value and performance that you simply cannot ignore.".data

/-- Model of the `createFallbackProduct` closure (src/utils.ts lines
429-449); `manualAsin` and `manualImage` are already trimmed and
truthy-normalised as in the enclosing function. -/
def createFallbackProduct (manualAsin manualImage fallbackImage : Option Str) :
    ProductDetails :=
  let fallbackImg :=
    match manualImage with
    | some img => img
    | none =>
        match manualAsin with
        | some a => constructAmazonImageUrl a
        | none => jsOr fallbackImage strPlaceholder
  { asin := manualAsin.getD []
    title := if manualAsin.isSome then strAmazonProduct else strDetectedProduct
    price := strCheckPrice
    rating := 4.8
    prime := true
    imageUrl := fallbackImg
    description := some []
    pros := some [strVerifiedQuality, strFastShipping]
    cons := some []
    award := some strTopPick
    verdict := some strSolidChoice
    specs := some []
    lastUpdated := none
    url := none
    schema := none
    contextSnippet := some [] }

/-- Model of the `mapToProduct` closure (src/utils.ts lines 494-531). -/
def mapToProduct (manualAsin manualImage fallbackImage : Option Str) (d : AiJson) :
    ProductDetails :=
  let p4 := jsOr fallbackImage strPlaceholder
  let p3 :=
    match strTruthy d.imageUrl with
    | some u => if strStarts litHttp u then u else p4
    | none => p4
  let p2 :=
    match strTruthy d.asin <|> manualAsin with
    | some a => constructAmazonImageUrl a
    | none => p3
  let finalImage :=
    match manualImage with
    | some img => if strStarts litHttp img then img else p2
    | none => p2
  let p0 : ProductDetails :=
    { asin := (manualAsin <|> strTruthy d.asin).getD []
      title := jsOr d.productName strUnknownProduct
      price := jsOr d.price strCheckPrice
      rating := 4.8
      prime := true
      imageUrl := finalImage
      description := some []
      pros := match d.pros with
        | some l => some l
        | none => some [strHighQuality, strGreatValue]
      cons := d.cons
      award := some (jsOr d.award strTopPick)
      verdict := some (jsOr d.verdict strDefaultVerdict)
      specs := d.specs
      lastUpdated := none
      url := none
      schema := none
      contextSnippet := d.contextSnippet }
  { p0 with schema := some (generateJsonLd p0) }

/-- Model of `analyzeContentAndFindProduct` (src/utils.ts lines 414-551).
The grounding flag, prompt construction and `extractContext` only shape
the AI request and are not observable through `aiResult`. -/
def analyzeContentAndFindProduct (title htmlContent : Str) (opts : AnalyzeOptions)
    (aiResult : Except Unit JsonData) : AnalyzeResult :=
  let mode := opts.mode.getD .single
  let manualAsin := strTruthy (opts.manualAsin.map trimWs)
  let manualImage := strTruthy (opts.manualImage.map trimWs)
  if htmlContent.length < 50 then
    { product := some (createFallbackProduct manualAsin manualImage opts.fallbackImage)
      detectedProducts := []
      confidence := 0 }
  else
    match aiResult with
    | .error _ =>
        if manualAsin.isSome || manualImage.isSome then
          let fb := createFallbackProduct manualAsin manualImage opts.fallbackImage
          { product := some fb, detectedProducts := [fb], confidence := 100 }
        else { product := none, detectedProducts := [], confidence := 0 }
    | .ok data =>
        let singleRes (o : AiJson) : AnalyzeResult :=
          let prod := mapToProduct manualAsin manualImage opts.fallbackImage o
          let prod :=
            if manualAsin.isSome then { prod with asin := manualAsin.getD [] } else prod
          { product := some prod
            detectedProducts := [prod]
            confidence := match o.confidence with
              | some n => if n = 0 then 85 else n
              | none => 85 }
        if mode = .multi then
          match data with
          | .arr l =>
              let products := l.map (mapToProduct manualAsin manualImage opts.fallbackImage)
              { product := products.head?, detectedProducts := products, confidence := 90 }
          | .obj o => singleRes o
        else singleRes (asObj data)

/-- C2: `analyzeContentAndFindProduct` is total (it never throws to its
caller), and when the underlying AI call fails after all retries it
returns a non-empty fallback candidate with confidence exactly 100 if a
manual identifier or image was supplied (the candidate carrying the
trimmed manual identifier), and an empty candidate with confidence 0
otherwise. -/
theorem analyze_failure_fallback (title htmlContent : Str) (opts : AnalyzeOptions)
    (hlen : 50 ≤ htmlContent.length) :
    ((strTruthy (opts.manualAsin.map trimWs)).isSome = true ∨
        (strTruthy (opts.manualImage.map trimWs)).isSome = true →
      (analyzeContentAndFindProduct title htmlContent opts (Except.error ())).confidence = 100 ∧
        (analyzeContentAndFindProduct title htmlContent opts (Except.error ())).product.isSome = true ∧
        (analyzeContentAndFindProduct title htmlContent opts (Except.error ())).detectedProducts ≠ [] ∧
        ∀ a, strTruthy (opts.manualAsin.map trimWs) = some a →
          (analyzeContentAndFindProduct title htmlContent opts (Except.error ())).product.map
              (fun p => p.asin) = some a) ∧
    (strTruthy (opts.manualAsin.map trimWs) = none →
      strTruthy (opts.manualImage.map trimWs) = none →
      analyzeContentAndFindProduct title htmlContent opts (Except.error ()) =
        ⟨none, [], 0⟩) := by
  have hno : ¬ htmlContent.length < 50 := by omega
  constructor
  · intro hman
    have hcond : ((strTruthy (opts.manualAsin.map trimWs)).isSome ||
        (strTruthy (opts.manualImage.map trimWs)).isSome) = true := by
      rcases hman with h | h <;> simp [h]
    unfold analyzeContentAndFindProduct
    rw [if_neg hno]
    simp only [hcond, if_true]
    refine ⟨by simp, by simp, by simp, ?_⟩
    intro a ha
    simp [createFallbackProduct, ha]
  · intro ha hi
    unfold analyzeContentAndFindProduct
    rw [if_neg hno]
    simp [ha, hi]

def witOptsC2 : AnalyzeOptions :=
  { manualAsin := some " B0ABCDEFGH ".data
    manualImage := none
    mode := none
    fallbackImage := none }

def witHtmlC2 : Str :=
  "<p>A long enough piece of content about this product.</p>".data

/-- Witness for `analyze_failure_fallback`: a failing AI call with a
manual ASIN yields the fallback candidate with that ASIN and
confidence 100. -/
theorem analyze_failure_fallback_witness :
    50 ≤ witHtmlC2.length ∧
      (analyzeContentAndFindProduct [] witHtmlC2 witOptsC2 (Except.error ())).confidence = 100 ∧
      (analyzeContentAndFindProduct [] witHtmlC2 witOptsC2 (Except.error ())).product.map
          (fun p => p.asin) = some "B0ABCDEFGH".data := by
  have h := analyze_failure_fallback [] witHtmlC2 witOptsC2 (by decide)
  have h1 := h.1 (Or.inl (by decide))
  exact ⟨by decide, h1.1, h1.2.2.2 _ (by decide)⟩

/-!
## Product box rendering (`generateProductBoxHtml`, src/utils.ts lines 580-699)
-/

def strTopChoice : Str := "Top Choice".data

/-- Template interpolation of a possibly-absent field: JavaScript
renders `undefined` literally. -/
def optStr : Option Str → Str
  | some s => s
  | none => "undefined".data

def starRow : Str := ("â˜…".data ++ "â˜…".data ++ "â˜…".data ++ "â˜…".data ++ "â˜…".data)

/-- The `reset` style constant of `generateProductBoxHtml`. -/
def resetStyle : Str := "all: unset; box-sizing: border-box; font-family: -apple-system, system-ui, sans-serif; line-height: 1.5; color: #1e293b; display: block;".data

def primeHtml (product : ProductDetails) : Str :=
  if product.prime then "<span style=\"font-size: 10px; font-weight: 900; color: #00a8e1; font-style: italic;\">PRIME</span>".data else []

def specEntryHtml (kv : Str × Str) : Str :=
  "\n                <div style=\"font-size: 11px; color: #475569; background: #f1f5f9; padding: 6px 12px; border-radius: 8px;\">\n                   <span style=\"font-weight:700; color:#1e293b;\">".data ++
    kv.1 ++
    ":</span> ".data ++
    kv.2 ++
    "\n                </div>\n              ".data

def specsHtml (product : ProductDetails) : Str :=
  match product.specs with
  | none => []
  | some entries =>
      "<div style=\"".data ++
      resetStyle ++
      " display: grid; grid-template-columns: 1fr 1fr; gap: 8px; margin-bottom: 24px;\">\n              ".data ++
      ((entries.take 2).map specEntryHtml).flatten ++
      "\n           </div>".data

def schemaHtmlOf (sVal : Str) : Str :=
  "<script type=\"application/ld+json\">".data ++
    sVal ++
    "</script>".data

def litNotSpecified : Str := "not specified".data
def litCheckPriceLower : Str := "check price".data
def litAmzDp : Str := "https://www.amazon.com/dp/".data
def litTagQuery : Str := "?tag=".data
def litAmzDash : Str := "amz-".data

def stylesOf (uid : Str) : Str :=
  "\n    <style>\n      @keyframes amz-pulse-".data ++
    uid ++
    " \x7b\n        0% \x7b transform: scale(1); box-shadow: 0 0 0 0 rgba(16, 185, 129, 0.7); \x7d\n        70% \x7b transform: scale(1.02); box-shadow: 0 0 0 10px rgba(16, 185, 129, 0); \x7d\n        100% \x7b transform: scale(1); box-shadow: 0 0 0 0 rgba(16, 185, 129, 0); \x7d\n      \x7d\n      .amz-btn-pulse-".data ++
    uid ++
    " \x7b\n        animation: amz-pulse-".data ++
    uid ++
    " 2s infinite;\n      \x7d\n      .amz-glass-".data ++
    uid ++
    " \x7b\n        background: rgba(255, 255, 255, 0.95);\n        backdrop-filter: blur(20px);\n        -webkit-backdrop-filter: blur(20px);\n      \x7d\n    </style>\n  ".data

def stickyHtmlOf (uid resetS displayPrice link : Str) : Str :=
  "\n      <div id=\"".data ++
    uid ++
    "-sticky\" style=\"".data ++
    resetS ++
    " position: fixed; bottom: 0; left: 0; right: 0; background: rgba(255,255,255,0.9); backdrop-filter: blur(15px); padding: 12px 20px; border-top: 1px solid rgba(0,0,0,0.05); box-shadow: 0 -4px 30px rgba(0,0,0,0.1); z-index: 99999; display: none; justify-content: space-between; align-items: center; transform: translateY(100%); transition: transform 0.4s cubic-bezier(0.16, 1, 0.3, 1);\">\n          <div style=\"".data ++
    resetS ++
    " display: flex; flex-direction: column;\">\n             <span style=\"font-size: 9px; text-transform: uppercase; color: #64748b; font-weight: 800; letter-spacing: 1px;\">Available On Amazon</span>\n             <span style=\"font-weight: 900; color: #0f172a; font-size: 16px;\">".data ++
    displayPrice ++
    "</span>\n          </div>\n          <a href=\"".data ++
    link ++
    "\" target=\"_blank\" rel=\"nofollow sponsored\" style=\"".data ++
    resetS ++
    " background: #000; color: white; padding: 10px 24px; border-radius: 99px; font-weight: 700; font-size: 13px; text-decoration: none; box-shadow: 0 4px 15px rgba(0,0,0,0.2);\">\n             Check Deal\n          </a>\n      </div>\n      <script>\n         (function()\x7b\n            var bar = document.getElementById(\x27".data ++
    uid ++
    "-sticky\x27);\n            if(window.innerWidth < 768 && bar) \x7b\n                bar.style.display = \x27flex\x27;\n                setTimeout(function()\x7b bar.style.transform = \x27translateY(0)\x27; \x7d, 800);\n            \x7d\n         \x7d)();\n      </script>".data

/-- Model of `generateProductBoxHtml` (src/utils.ts lines 580-699).
`Math.random().toString(36).substr(2, 9)` is impure; the random id
suffix is the explicit `uidSuffix` parameter, so that
`uniqueId = "amz-" ++ uidSuffix` exactly as in the source. -/
def generateProductBoxHtml (product : ProductDetails) (affiliateTag : Str)
    (enableStickyBar : Bool) (uidSuffix : Str) : Str :=
  let cleanAsin := trimWs product.asin
  let link := if cleanAsin = [] then ['#'] else litAmzDp ++ cleanAsin ++ litTagQuery ++ affiliateTag
  let uid := litAmzDash ++ uidSuffix
  let displayPrice :=
    if product.price = [] || strContains litNotSpecified (toLowerStr product.price) ||
        strContains litCheckPriceLower (toLowerStr product.price) then
      strCheckPrice
    else product.price
  let styles := stylesOf uid
  let sticky :=
    if enableStickyBar && !(cleanAsin = []) then stickyHtmlOf uid resetStyle displayPrice link
    else []
  let schemaH :=
    match strTruthy product.schema with
    | some sVal => schemaHtmlOf sVal
    | none => []
  "\n    <!-- wp:html -->\n    <div id=\"".data ++
    uid ++
    "\" class=\"amz-sota-box amz-glass-".data ++
    uid ++
    "\" style=\"".data ++
    resetStyle ++
    " margin: 4rem auto; max-width: 850px; border-radius: 24px; border: 1px solid rgba(0,0,0,0.06); box-shadow: 0 25px 50px -12px rgba(0,0,0,0.1); overflow: hidden; position: relative;\">\n      ".data ++
    schemaH ++
    "\n      ".data ++
    styles ++
    "\n      \n      <!-- Verified Header -->\n      <div style=\"".data ++
    resetStyle ++
    " background: linear-gradient(to right, #f8fafc, #fff); border-bottom: 1px solid #f1f5f9; padding: 12px 24px; display: flex; align-items: center; justify-content: space-between;\">\n          <div style=\"".data ++
    resetStyle ++
    " display: flex; align-items: center; gap: 8px; font-size: 11px; font-weight: 800; text-transform: uppercase; color: #475569; letter-spacing: 0.5px;\">\n             <span style=\"display:inline-block; width:6px; height:6px; background:#10b981; border-radius:50%;\"></span> Expert Verified\n          </div>\n          <div style=\"".data ++
    resetStyle ++
    " font-size: 10px; font-weight: 800; text-transform: uppercase; color: #fff; background: linear-gradient(135deg, #3b82f6, #2563eb); padding: 5px 14px; border-radius: 99px; box-shadow: 0 2px 10px rgba(37, 99, 235, 0.2);\">\n             ".data ++
    (jsOr product.award strTopChoice) ++
    "\n          </div>\n      </div>\n\n      <div class=\"amz-layout\" style=\"".data ++
    resetStyle ++
    " display: flex; flex-wrap: wrap;\">\n        <!-- Image -->\n        <div style=\"".data ++
    resetStyle ++
    " flex: 1; min-width: 300px; padding: 40px; display: flex; align-items: center; justify-content: center; background: #fff;\">\n           <a href=\"".data ++
    link ++
    "\" target=\"_blank\" rel=\"nofollow sponsored\" style=\"display: block; transition: transform 0.3s cubic-bezier(0.175, 0.885, 0.32, 1.275);\">\n             <img src=\"".data ++
    product.imageUrl ++
    "\" alt=\"".data ++
    product.title ++
    "\" style=\"max-width: 100%; height: auto; max-height: 240px; object-fit: contain; filter: drop-shadow(0 10px 15px rgba(0,0,0,0.1));\" />\n           </a>\n        </div>\n        <!-- Info -->\n        <div style=\"".data ++
    resetStyle ++
    " flex: 1.4; min-width: 320px; padding: 32px; display: flex; flex-direction: column; background: #fbfbfc;\">\n           <h3 style=\"".data ++
    resetStyle ++
    " font-size: 1.5rem; font-weight: 800; color: #0f172a; line-height: 1.25; margin-bottom: 12px; letter-spacing: -0.02em;\">\n             <a href=\"".data ++
    link ++
    "\" target=\"_blank\" rel=\"nofollow sponsored\" style=\"text-decoration: none; color: #0f172a;\">".data ++
    product.title ++
    "</a>\n           </h3>\n           \n           <div style=\"".data ++
    resetStyle ++
    " display: flex; align-items: center; gap: 10px; margin-bottom: 20px;\">\n              <div style=\"display:flex; color: #fbbf24;\">".data ++
    starRow ++
    "</div>\n              ".data ++
    (primeHtml product) ++
    "\n              <span style=\"font-size: 11px; color: #94a3b8; font-weight: 600;\">| 200+ Bought in past month</span>\n           </div>\n\n           <p style=\"".data ++
    resetStyle ++
    " font-size: 1rem; color: #475569; margin-bottom: 24px; line-height: 1.6; background: #fff; padding: 16px; border-radius: 12px; border: 1px solid #e2e8f0;\">\n              <span style=\"font-weight: 800; color: #0f172a; font-size: 11px; text-transform: uppercase; display: block; margin-bottom: 6px; letter-spacing: 0.5px;\">The Verdict</span>\n              ".data ++
    (optStr product.verdict) ++
    "\n           </p>\n\n           <!-- Specs Mini -->\n           ".data ++
    (specsHtml product) ++
    "\n\n           <div style=\"".data ++
    resetStyle ++
    " margin-top: auto; display: flex; align-items: center; justify-content: space-between; padding-top: 10px;\">\n              <div style=\"display:flex; flex-direction:column;\">\n                <span style=\"font-size:10px; font-weight:700; color:#94a3b8; text-transform:uppercase;\">Current Price</span>\n                <span style=\"font-size: 1.8rem; font-weight: 900; color: #0f172a; letter-spacing: -1px;\">".data ++
    displayPrice ++
    "</span>\n              </div>\n              <a href=\"".data ++
    link ++
    "\" target=\"_blank\" rel=\"nofollow sponsored\" class=\"amz-btn-pulse-".data ++
    uid ++
    "\" style=\"".data ++
    resetStyle ++
    " background: #0f172a; color: white; padding: 14px 32px; border-radius: 14px; font-weight: 700; font-size: 14px; text-decoration: none; transition: transform 0.2s; display:inline-flex; align-items:center; gap:8px;\">\n                Check Price <span style=\"font-size:16px;\">&rarr;</span>\n              </a>\n           </div>\n        </div>\n      </div>\n      ".data ++
    sticky ++
    "\n    </div>\n    <!-- /wp:html -->\n  ".data

/-!
## ContentMutator (`insertIntoContent`, src/utils.ts lines 724-771)

`insertIntoContent` first strips any existing product-box fragment with
two global regex replaces:

  `/<!-- wp:html -->\s*<div id="amz-.*?" class="amz-sota-box[\s\S]*?<\/div>\s*<!-- \/wp:html -->/g`
  `/<div id="amz-.*?" class="amz-sota-box[\s\S]*?<\/div>/g`

and then splices the new fragment at a strategy-dependent block/paragraph
boundary.  The matchers below implement exactly the backtracking
semantics of those patterns: `.*?` cannot cross a line terminator and
extends to the next candidate when the rest of the pattern fails there;
`\s*` between a literal and a following non-whitespace literal is the
maximal whitespace run; a global replace resumes scanning right after
each removed match.
-/

def litWpHtmlOpen : Str := "<!-- wp:html -->".data
def litWpHtmlClose : Str := "<!-- /wp:html -->".data
def litDivIdAmz : Str := "<div id=\"amz-".data
def litClassMarker : Str := "\" class=\"amz-sota-box".data
def litDivClose : Str := "</div>".data
def markerStr : Str := "amz-sota-box".data

/-- JavaScript line terminators (what `.` does not match). -/
def isLineTerm (c : Char) : Bool :=
  c = '\n' || c = '\r' || c.toNat = 8232 || c.toNat = 8233

/-- Length of the leading whitespace run (`\s*`, greedy). -/
def wsCount : Str → Nat
  | [] => 0
  | c :: t => if isWsChar c then wsCount t + 1 else 0

/-- Skip the maximal leading whitespace run (`\s*`, greedy; equivalent
to dropping `wsCount` characters but evaluates lazily). -/
def dropWs (s : Str) : Str :=
  List.rec [] (fun c t ih => if isWsChar c then ih else c :: t) s

theorem dropWs_nil : dropWs [] = [] := rfl

theorem dropWs_cons (c : Char) (t : Str) :
    dropWs (c :: t) = if isWsChar c then dropWs t else c :: t := rfl

/-- Matcher for the tail `[\s\S]*?<\/div>\s*<!-- \/wp:html -->` of the
first strip pattern: the suffix remaining after the first `</div>` that
is followed by whitespace and `<!-- /wp:html -->` (so the matched span is
everything up to that suffix).  Defining equations: `strip1End_nil`,
`strip1End_cons`. -/
def strip1End (s : Str) : Option Str :=
  List.rec none
    (fun c t ih =>
      if strStarts litDivClose (c :: t) then
        let rest := dropWs ((c :: t).drop 6)
        if strStarts litWpHtmlClose rest then some (rest.drop 17) else ih
      else ih) s

theorem strip1End_nil : strip1End [] = none := rfl

theorem strip1End_cons (c : Char) (t : Str) :
    strip1End (c :: t) =
      (if strStarts litDivClose (c :: t) then
        if strStarts litWpHtmlClose (dropWs ((c :: t).drop 6)) then
          some ((dropWs ((c :: t).drop 6)).drop 17)
        else strip1End t
      else strip1End t) := rfl

/-- Matcher for `.*?" class="amz-sota-box` followed by `strip1End`:
non-greedy dots cannot cross a line terminator and extend past a literal
occurrence whose continuation fails.  Defining equations:
`strip1Mid_nil`, `strip1Mid_cons`. -/
def strip1Mid (s : Str) : Option Str :=
  List.rec none
    (fun c t ih =>
      if strStarts litClassMarker (c :: t) then
        match strip1End ((c :: t).drop 21) with
        | some rest => some rest
        | none => if isLineTerm c then none else ih
      else if isLineTerm c then none else ih) s

theorem strip1Mid_nil : strip1Mid [] = none := rfl

theorem strip1Mid_cons (c : Char) (t : Str) :
    strip1Mid (c :: t) =
      (if strStarts litClassMarker (c :: t) then
        match strip1End ((c :: t).drop 21) with
        | some rest => some rest
        | none => if isLineTerm c then none else strip1Mid t
      else if isLineTerm c then none else strip1Mid t) := rfl

/-- Anchored match of the first strip pattern, returning the suffix
after the matched span. -/
def strip1Match (s : Str) : Option Str :=
  if strStarts litWpHtmlOpen s then
    let afterWs := dropWs (s.drop 16)
    if strStarts litDivIdAmz afterWs then strip1Mid (afterWs.drop 13)
    else none
  else none

/-- Matcher for the tail `[\s\S]*?<\/div>` of the second strip pattern.
Defining equations: `strip2End_nil`, `strip2End_cons`. -/
def strip2End (s : Str) : Option Str :=
  List.rec none
    (fun c t ih =>
      if strStarts litDivClose (c :: t) then some ((c :: t).drop 6) else ih) s

theorem strip2End_nil : strip2End [] = none := rfl

theorem strip2End_cons (c : Char) (t : Str) :
    strip2End (c :: t) =
      (if strStarts litDivClose (c :: t) then some ((c :: t).drop 6)
      else strip2End t) := rfl

def strip2Mid (s : Str) : Option Str :=
  List.rec none
    (fun c t ih =>
      if strStarts litClassMarker (c :: t) then
        match strip2End ((c :: t).drop 21) with
        | some rest => some rest
        | none => if isLineTerm c then none else ih
      else if isLineTerm c then none else ih) s

theorem strip2Mid_nil : strip2Mid [] = none := rfl

theorem strip2Mid_cons (c : Char) (t : Str) :
    strip2Mid (c :: t) =
      (if strStarts litClassMarker (c :: t) then
        match strip2End ((c :: t).drop 21) with
        | some rest => some rest
        | none => if isLineTerm c then none else strip2Mid t
      else if isLineTerm c then none else strip2Mid t) := rfl

/-- Anchored match of the second strip pattern, returning the suffix
after the matched span. -/
def strip2Match (s : Str) : Option Str :=
  if strStarts litDivIdAmz s then strip2Mid (s.drop 13) else none

/-- Global regex replace by the empty string: scan left to right; at a
match, continue with the suffix the matcher returns (the matched span is
dropped); otherwise keep the character.  The `fuel` list only drives the
structural recursion: every step strictly shortens the scanned string,
so starting with `fuel = s` the exhaustion case is unreachable.
Defining equations: `replaceScan_nil`, `replaceScan_cons`. -/
def replaceScan (mf : Str → Option Str) (fuel s : Str) : Str :=
  List.rec (motive := fun _ => Str → Str) (fun s => s)
    (fun _ _ ih s =>
      match s with
      | [] => []
      | c :: t =>
          match mf (c :: t) with
          | some rest => ih rest
          | none => c :: ih t) fuel s

theorem replaceScan_nilFuel (mf : Str → Option Str) (s : Str) :
    replaceScan mf [] s = s := rfl

theorem replaceScan_nil (mf : Str → Option Str) (f : Char) (fuel : Str) :
    replaceScan mf (f :: fuel) [] = [] := rfl

theorem replaceScan_cons (mf : Str → Option Str) (f : Char) (fuel : Str)
    (c : Char) (t : Str) :
    replaceScan mf (f :: fuel) (c :: t) =
      (match mf (c :: t) with
      | some rest => replaceScan mf fuel rest
      | none => c :: replaceScan mf fuel t) := rfl

/-- STEP 1 of `insertIntoContent`: both strip replaces in order. -/
def insertStrip (html : Str) : Str :=
  let h1 := replaceScan strip1Match html html
  replaceScan strip2Match h1 h1

/-- STEP 1 plus the `if (!cleanHtml) cleanHtml = html` safety net. -/
def cleanOf (html : Str) : Str :=
  let c := insertStrip html
  if c.isEmpty then html else c

def litWpColon : Str := "<!-- wp:".data
def closerPara : Str := "<!-- /wp:paragraph -->".data
def closerGroup : Str := "<!-- /wp:group -->".data
def closerImage : Str := "<!-- /wp:image -->".data
def closerHeading : Str := "<!-- /wp:heading -->".data
def closerList : Str := "<!-- /wp:list -->".data
def litPClose : Str := "</p>".data
def litH2Close : Str := "</h2>".data
def litH3Close : Str := "</h3>".data

/-- Anchored match of `/<!-- \/wp:(paragraph|group|image|heading|list) -->/i`. -/
def blockCloserAt (s : Str) : Option Nat :=
  if strStartsCI closerPara s then some 22
  else if strStartsCI closerGroup s then some 18
  else if strStartsCI closerImage s then some 18
  else if strStartsCI closerHeading s then some 20
  else if strStartsCI closerList s then some 17
  else none

def headingCloserAt (s : Str) : Option Nat :=
  if strStartsCI closerHeading s then some 20 else none

def pCloserAt (s : Str) : Option Nat :=
  if strStartsCI litPClose s then some 4 else none

/-- `[...str.matchAll(re)]` for a global regex: the `(index, length)`
pairs of the non-overlapping leftmost matches, with structural fuel as in
`replaceScan`.  Defining equations: `matchAllPos_nil`, `matchAllPos_cons`. -/
def matchAllPos (mf : Str → Option Nat) (fuel : Str) (i : Nat) (s : Str) :
    List (Nat × Nat) :=
  List.rec (motive := fun _ => Nat → Str → List (Nat × Nat)) (fun _ _ => [])
    (fun _ _ ih i s =>
      match s with
      | [] => []
      | c :: t =>
          match mf (c :: t) with
          | some n =>
              if n = 0 then ih (i + 1) t
              else (i, n) :: ih (i + n) ((c :: t).drop n)
          | none => ih (i + 1) t) fuel i s

theorem matchAllPos_nilFuel (mf : Str → Option Nat) (i : Nat) (s : Str) :
    matchAllPos mf [] i s = [] := rfl

theorem matchAllPos_nil (mf : Str → Option Nat) (f : Char) (fuel : Str) (i : Nat) :
    matchAllPos mf (f :: fuel) i [] = [] := rfl

theorem matchAllPos_cons (mf : Str → Option Nat) (f : Char) (fuel : Str) (i : Nat)
    (c : Char) (t : Str) :
    matchAllPos mf (f :: fuel) i (c :: t) =
      (match mf (c :: t) with
      | some n =>
          if n = 0 then matchAllPos mf fuel (i + 1) t
          else (i, n) :: matchAllPos mf fuel (i + n) ((c :: t).drop n)
      | none => matchAllPos mf fuel (i + 1) t) := rfl

/-- First index of a case-insensitive match (`re.exec(s).index`). -/
def firstIdxCI (pat : Str) (i : Nat) (s : Str) : Option Nat :=
  List.rec (motive := fun _ => Nat → Option Nat) (fun _ => none)
    (fun c t ih i => if strStartsCI pat (c :: t) then some i else ih (i + 1)) s i

def nnStr : Str := ['\n', '\n']

/-- `cleanHtml.substring(0, idx) + "\n\n" + box + "\n\n" +
cleanHtml.substring(idx)`. -/
def insertAt (cleanHtml box : Str) (idx : Nat) : Str :=
  cleanHtml.take idx ++ nnStr ++ box ++ nnStr ++ cleanHtml.drop idx

inductive InsertionMethod | top | bottom | smart_middle | after_h2 | context_match
deriving DecidableEq, Repr

def isWordChar (c : Char) : Bool := isAsinChar c || c = '_'

/-- Case-insensitive anchored match with an arbitrary-case pattern (the
snippet is interpolated into an `/i` regex). -/
def strStartsCI2 : Str → Str → Bool
  | [], _ => true
  | _ :: _, [] => false
  | p :: pt, c :: ct => lowerChar p == lowerChar c && strStartsCI2 pt ct

/-- First `>` (the greedy `[^>]*>`, which may cross newlines). -/
def findGt : Nat → Str → Option Nat
  | _, [] => none
  | i, c :: t => if c = '>' then some i else findGt (i + 1) t

/-- First case-insensitive occurrence of the snippet reachable without
crossing a line terminator (`.*?${cleanSnippet}`). -/
def ctxFindSnip (snip : Str) : Nat → Str → Option Nat
  | i, [] => if strStartsCI2 snip [] then some i else none
  | i, s@(c :: t) =>
      if strStartsCI2 snip s then some i
      else if isLineTerm c then none
      else ctxFindSnip snip (i + 1) t

/-- First `</h2>`/`</h3>` reachable without crossing a line terminator
(`.*?</h[23]>`). -/
def ctxFindClose : Nat → Str → Option Nat
  | _, [] => none
  | i, s@(c :: t) =>
      if strStartsCI litH2Close s || strStartsCI litH3Close s then some i
      else if isLineTerm c then none
      else ctxFindClose (i + 1) t

/-- Anchored match length of `(<h[23][^>]*>.*?${snip}.*?<\/h[23]>)/i`.
A later snippet occurrence can only search a smaller suffix of the same
line for the closing tag, so trying the first occurrence is exact. -/
def ctxMatchAt (snip : Str) : Str → Option Nat
  | c0 :: c1 :: c2 :: t =>
      if c0 = '<' && lowerChar c1 = 'h' && (c2 = '2' || c2 = '3') then
        match findGt 0 t with
        | none => none
        | some g =>
            let afterTag := t.drop (g + 1)
            match ctxFindSnip snip 0 afterTag with
            | none => none
            | some d =>
                let afterSnip := afterTag.drop (d + snip.length)
                match ctxFindClose 0 afterSnip with
                | none => none
                | some k => some (3 + g + 1 + d + snip.length + k + 5)
      else none
  | _ => none

/-- Leftmost match of the context regex: `(index, length)`. -/
def ctxScan (snip : Str) (i : Nat) : Str → Option (Nat × Nat)
  | [] => none
  | s@(_ :: t) =>
      match ctxMatchAt snip s with
      | some n => some (i, n)
      | none => ctxScan snip (i + 1) t

/-- Model of `insertIntoContent` (src/utils.ts lines 724-771). -/
def insertIntoContent (html box : Str) (method : InsertionMethod)
    (contextSnippet : Option Str) : Str :=
  let cleanHtml := cleanOf html
  let ctxResult :=
    if method = .context_match then
      match strTruthy contextSnippet with
      | some snip =>
          let cleanSnippet := (snip.filter (fun c => isWordChar c || isWsChar c)).take 30
          ctxScan cleanSnippet 0 cleanHtml
      | none => none
    else none
  match ctxResult with
  | some (i, len) => insertAt cleanHtml box (i + len)
  | none =>
      if strContains litWpColon cleanHtml then
        match matchAllPos blockCloserAt cleanHtml 0 cleanHtml with
        | [] => cleanHtml ++ nnStr ++ box
        | b0 :: bs =>
            let blocks := b0 :: bs
            let idx :=
              match method with
              | .top => b0.1 + b0.2
              | .smart_middle =>
                  let b := blocks.getD (blocks.length / 2) (0, 0)
                  b.1 + b.2
              | .after_h2 =>
                  match matchAllPos headingCloserAt cleanHtml 0 cleanHtml with
                  | h :: _ => h.1 + h.2
                  | [] => b0.1 + b0.2
              | .bottom => cleanHtml.length
              | .context_match => cleanHtml.length
            insertAt cleanHtml box idx
      else
        match matchAllPos pCloserAt cleanHtml 0 cleanHtml with
        | [] => cleanHtml ++ nnStr ++ box
        | p0 :: ps' =>
            let ps := p0 :: ps'
            let idx :=
              match method with
              | .top => p0.1 + 4
              | .smart_middle => (ps.getD (ps.length / 2) (0, 0)).1 + 4
              | .after_h2 =>
                  match firstIdxCI litH2Close 0 cleanHtml with
                  | some i => i + 5
                  | none => p0.1 + 4
              | .bottom => cleanHtml.length
              | .context_match => cleanHtml.length
            insertAt cleanHtml box idx

/-!
## Generic string lemmas for the ContentMutator proofs
-/

/-- Character at index `i` (as an `Option`). -/
def nthc (s : Str) (i : Nat) : Option Char := (s.drop i).head?

theorem countOcc_nil_of_ne (p : Str) (hp : p ≠ []) : countOcc p [] = 0 := by
  have : strStarts p [] = false := by
    cases p with
    | nil => exact absurd rfl hp
    | cons c t => rfl
  simp [countOcc, occList_nil, this]

theorem countOcc_cons (p : Str) (c : Char) (t : Str) :
    countOcc p (c :: t) = (if strStarts p (c :: t) then 1 else 0) + countOcc p t := by
  unfold countOcc
  rw [occList_cons]
  by_cases h : strStarts p (c :: t) <;> simp [h, Nat.add_comm]

/-- `occursAt p s i`: `p` occurs in `s` at index `i`. -/
def occursAt (p s : Str) (i : Nat) : Prop := strStarts p (s.drop i) = true

theorem occursAt_cons_succ (p : Str) (c : Char) (t : Str) (i : Nat) :
    occursAt p (c :: t) (i + 1) ↔ occursAt p t i := by
  unfold occursAt
  rw [List.drop_succ_cons]

theorem countOcc_pos_of_occursAt (p s : Str) (i : Nat) (h : occursAt p s i) :
    1 ≤ countOcc p s := by
  induction s generalizing i with
  | nil =>
      unfold occursAt at h
      rw [List.drop_nil] at h
      unfold countOcc
      rw [occList_nil, h]
      simp
  | cons c t ih =>
      rw [countOcc_cons]
      cases i with
      | zero =>
          unfold occursAt at h
          rw [List.drop_zero] at h
          simp [h]
      | succ j =>
          have := ih j ((occursAt_cons_succ p c t j).mp h)
          omega

theorem countOcc_eq_zero_iff (p s : Str) (hp : p ≠ []) :
    countOcc p s = 0 ↔ ∀ i, ¬ occursAt p s i := by
  constructor
  · intro h i hocc
    have := countOcc_pos_of_occursAt p s i hocc
    omega
  · intro h
    induction s with
    | nil => exact countOcc_nil_of_ne p hp
    | cons c t ih =>
        rw [countOcc_cons]
        have h0 : strStarts p (c :: t) = false := by
          by_contra hcon
          exact h 0 (by simpa [occursAt] using Bool.of_not_eq_false hcon)
        rw [h0, if_neg (by simp)]
        have := ih (fun i hi => h (i + 1) ((occursAt_cons_succ p c t i).mpr hi))
        omega

theorem two_le_countOcc (p s : Str) (hp : p ≠ []) (a b : Nat) (hab : a < b)
    (ha : occursAt p s a) (hb : occursAt p s b) : 2 ≤ countOcc p s := by
  induction s generalizing a b with
  | nil =>
      unfold occursAt at ha
      rw [List.drop_nil] at ha
      cases p with
      | nil => exact absurd rfl hp
      | cons x xs => simp [strStarts] at ha
  | cons c t ih =>
      rw [countOcc_cons]
      cases a with
      | zero =>
          unfold occursAt at ha
          rw [List.drop_zero] at ha
          rw [ha]
          obtain ⟨b', rfl⟩ : ∃ b', b = b' + 1 := ⟨b - 1, by omega⟩
          have hb' := (occursAt_cons_succ p c t b').mp hb
          have := countOcc_pos_of_occursAt p t b' hb'
          simp
          omega
      | succ a' =>
          obtain ⟨b', rfl⟩ : ∃ b', b = b' + 1 := ⟨b - 1, by omega⟩
          have := ih a' b' (by omega) ((occursAt_cons_succ p c t a').mp ha)
            ((occursAt_cons_succ p c t b').mp hb)
          omega

theorem countOcc_unique_pos (p s : Str) (hp : p ≠ []) (hcount : countOcc p s = 1)
    (a b : Nat) (ha : occursAt p s a) (hb : occursAt p s b) : a = b := by
  by_contra hne
  rcases Nat.lt_or_ge a b with h | h
  · have := two_le_countOcc p s hp a b h ha hb
    omega
  · have hlt : b < a := by omega
    have := two_le_countOcc p s hp b a hlt hb ha
    omega

theorem strStarts_append_of_starts (p u v : Str) (h : strStarts p u = true) :
    strStarts p (u ++ v) = true := by
  induction p generalizing u with
  | nil => rfl
  | cons x xs ih =>
      cases u with
      | nil => simp [strStarts] at h
      | cons c t =>
          rw [List.cons_append]
          rw [strStarts] at h ⊢
          rw [Bool.and_eq_true] at h
          obtain ⟨h1, h2⟩ := h
          rw [h1, ih t h2]
          rfl

theorem strStarts_append_left (p u v : Str) (hle : p.length ≤ u.length) :
    strStarts p (u ++ v) = strStarts p u := by
  induction p generalizing u with
  | nil => rfl
  | cons x xs ih =>
      cases u with
      | nil => simp at hle
      | cons c t =>
          rw [List.cons_append, strStarts, strStarts]
          rw [ih t (by simpa using Nat.le_of_succ_le_succ hle)]

theorem strStarts_decomp (p u : Str) (h : strStarts p u = true) :
    u = p ++ u.drop p.length := by
  induction p generalizing u with
  | nil => simp
  | cons x xs ih =>
      cases u with
      | nil => simp [strStarts] at h
      | cons c t =>
          rw [strStarts] at h
          rw [Bool.and_eq_true] at h
          obtain ⟨h1, h2⟩ := h
          have hx : x = c := by simpa using h1
          subst hx
          rw [List.cons_append, List.length_cons, List.drop_succ_cons]
          exact congrArg (x :: ·) (ih t h2)

theorem strStarts_nthc (p u : Str) (h : strStarts p u = true) (j : Nat)
    (hj : j < p.length) : nthc u j = nthc p j := by
  induction p generalizing u j with
  | nil => simp at hj
  | cons x xs ih =>
      cases u with
      | nil => simp [strStarts] at h
      | cons c t =>
          rw [strStarts] at h
          rw [Bool.and_eq_true] at h
          obtain ⟨h1, h2⟩ := h
          have hx : x = c := by simpa using h1
          subst hx
          cases j with
          | zero => rfl
          | succ j' =>
              have := ih t h2 j' (by simpa using Nat.lt_of_succ_lt_succ hj)
              simpa [nthc] using this

theorem nthc_mem (s : Str) (i : Nat) (c : Char) (h : nthc s i = some c) : c ∈ s := by
  unfold nthc at h
  have : c ∈ s.drop i := by
    cases hd : s.drop i with
    | nil => rw [hd] at h; simp at h
    | cons x xs =>
        rw [hd] at h
        simp at h
        subst h
        exact List.mem_cons_self x xs
  exact List.mem_of_mem_drop this

theorem strStarts_char_mem (p u : Str) (h : strStarts p u = true) (j : Nat)
    (hj : j < p.length) (c : Char) (hc : nthc u j = some c) : c ∈ p := by
  rw [strStarts_nthc p u h j hj] at hc
  exact nthc_mem p j c hc

theorem strStarts_of_take (p u : Str) (n : Nat) (h : strStarts p (u.take n) = true) :
    strStarts p u = true := by
  induction p generalizing u n with
  | nil => rfl
  | cons x xs ih =>
      cases u with
      | nil => simp [strStarts] at h
      | cons c t =>
          cases n with
          | zero => simp [strStarts] at h
          | succ m =>
              rw [List.take_succ_cons] at h
              rw [strStarts] at h ⊢
              rw [Bool.and_eq_true] at h ⊢
              exact ⟨h.1, ih t m h.2⟩

theorem nthc_drop (s : Str) (a j : Nat) : nthc (s.drop a) j = nthc s (a + j) := by
  unfold nthc
  rw [List.drop_drop]

theorem occursAt_take (p s : Str) (n i : Nat) (h : occursAt p (s.take n) i) :
    occursAt p s i := by
  unfold occursAt at h ⊢
  rw [List.drop_take] at h
  exact strStarts_of_take p (s.drop i) (n - i) h

theorem occursAt_drop (p s : Str) (n i : Nat) (h : occursAt p (s.drop n) i) :
    occursAt p s (n + i) := by
  unfold occursAt at h ⊢
  rw [List.drop_drop] at h
  exact h

theorem countOcc_take_zero (p s : Str) (hp : p ≠ []) (h : countOcc p s = 0) (n : Nat) :
    countOcc p (s.take n) = 0 := by
  rw [countOcc_eq_zero_iff p _ hp]
  intro i hi
  exact (countOcc_eq_zero_iff p s hp).mp h i (occursAt_take p s n i hi)

theorem countOcc_drop_zero (p s : Str) (hp : p ≠ []) (h : countOcc p s = 0) (n : Nat) :
    countOcc p (s.drop n) = 0 := by
  rw [countOcc_eq_zero_iff p _ hp]
  intro i hi
  exact (countOcc_eq_zero_iff p s hp).mp h (n + i) (occursAt_drop p s n i hi)

/-- A pattern without a newline cannot straddle a `
`-boundary. -/
theorem strStarts_nl_append (p u w : Str) (hnl : '\n' ∉ p) :
    strStarts p (u ++ '\n' :: w) = strStarts p u := by
  induction p generalizing u with
  | nil => rfl
  | cons x xs ih =>
      cases u with
      | nil =>
          have hx : (x == '\n') = false := by
            rw [beq_eq_false_iff_ne]
            intro hx
            exact hnl (hx ▸ List.mem_cons_self x xs)
          rw [List.nil_append]
          show (x == '\n' && strStarts xs w) = strStarts (x :: xs) []
          rw [hx]
          rfl
      | cons c t =>
          rw [List.cons_append, strStarts, strStarts]
          rw [ih t (fun hm => hnl (List.mem_cons_of_mem x hm))]

theorem countOcc_append_nl (p u w : Str) (hp : p ≠ []) (hnl : '\n' ∉ p) :
    countOcc p (u ++ '\n' :: w) = countOcc p u + countOcc p ('\n' :: w) := by
  induction u with
  | nil =>
      rw [List.nil_append, countOcc_nil_of_ne p hp, Nat.zero_add]
  | cons c t ih =>
      rw [List.cons_append, countOcc_cons, countOcc_cons]
      have hg : strStarts p ((c :: t) ++ '\n' :: w) = strStarts p (c :: t) :=
        strStarts_nl_append p (c :: t) w hnl
      rw [List.cons_append] at hg
      rw [hg, ih]
      omega

theorem strStarts_head (c₀ : Char) (p' u : Str) (h : strStarts (c₀ :: p') u = true) :
    u.head? = some c₀ := by
  cases u with
  | nil => simp [strStarts] at h
  | cons c t =>
      rw [strStarts, Bool.and_eq_true] at h
      have : c₀ = c := by simpa using h.1
      rw [this]
      rfl

/-- A pattern starting with a non-whitespace character never occurs in
an all-whitespace string. -/
theorem allWs_countOcc_zero (c₀ : Char) (p' u : Str) (hws : u.all isWsChar = true)
    (hnw : isWsChar c₀ = false) : countOcc (c₀ :: p') u = 0 := by
  rw [countOcc_eq_zero_iff _ _ (by simp)]
  intro i hi
  unfold occursAt at hi
  have hhead := strStarts_head c₀ p' (u.drop i) hi
  have hc : c₀ ∈ u := nthc_mem u i c₀ hhead
  have := (List.all_eq_true.mp hws) c₀ hc
  rw [hnw] at this
  exact Bool.noConfusion this

theorem all_take_nthc (u : Str) (P : Char → Bool) (n : Nat)
    (hall : (u.take n).all P = true) (j : Nat) (hj : j < n) (c : Char)
    (hc : nthc u j = some c) : P c = true := by
  induction u generalizing n j with
  | nil => simp [nthc] at hc
  | cons x t ih =>
      cases n with
      | zero => omega
      | succ m =>
          rw [List.take_succ_cons, List.all_cons, Bool.and_eq_true] at hall
          cases j with
          | zero =>
              have hxc : x = c := by simpa [nthc] using hc
              rw [← hxc]
              exact hall.1
          | succ j' =>
              exact ih m hall.2 j' (by omega) (by simpa [nthc] using hc)

theorem nthc_append_left (u v : Str) (i : Nat) (hi : i < u.length) :
    nthc (u ++ v) i = nthc u i := by
  induction u generalizing i with
  | nil => simp at hi
  | cons c t ih =>
      cases i with
      | zero => rfl
      | succ j =>
          have := ih j (by simpa using Nat.lt_of_succ_lt_succ hi)
          simpa [nthc] using this

theorem nthc_append_right (u v : Str) (i : Nat) :
    nthc (u ++ v) (u.length + i) = nthc v i := by
  induction u with
  | nil => simp [nthc]
  | cons c t ih =>
      rw [List.cons_append, List.length_cons]
      have : t.length + 1 + i = (t.length + i) + 1 := by omega
      rw [this]
      simpa [nthc] using ih

theorem dropWs_ws_append (u v : Str) (hws : u.all isWsChar = true) :
    dropWs (u ++ v) = dropWs v := by
  induction u with
  | nil => rfl
  | cons c t ih =>
      rw [List.all_cons, Bool.and_eq_true] at hws
      rw [List.cons_append, dropWs_cons, if_pos hws.1]
      exact ih hws.2

theorem dropWs_not_ws (c : Char) (t : Str) (h : isWsChar c = false) :
    dropWs (c :: t) = c :: t := by
  rw [dropWs_cons, h]
  rfl

/-- Specification of `dropWs`: it drops exactly the maximal leading
whitespace run. -/
theorem dropWs_spec (u : Str) :
    ∃ m, m ≤ u.length ∧ dropWs u = u.drop m ∧ (u.take m).all isWsChar = true ∧
      ∀ c, nthc u m = some c → isWsChar c = false := by
  induction u with
  | nil => exact ⟨0, by simp [dropWs_nil, nthc]⟩
  | cons c t ih =>
      by_cases hws : isWsChar c = true
      · obtain ⟨m, hm, hdrop, htake, hstop⟩ := ih
        refine ⟨m + 1, by simpa using hm, ?_, ?_, ?_⟩
        · rw [dropWs_cons, if_pos hws, List.drop_succ_cons]
          exact hdrop
        · rw [List.take_succ_cons, List.all_cons, Bool.and_eq_true]
          exact ⟨hws, htake⟩
        · intro d hd
          exact hstop d (by simpa [nthc] using hd)
      · refine ⟨0, by omega, ?_, by simp, ?_⟩
        · rw [List.drop_zero]
          exact dropWs_not_ws c t (by simpa using hws)
        · intro d hd
          have hcd : c = d := by simpa [nthc] using hd
          rw [← hcd]
          simpa using hws

theorem replaceScan_no_match (mf : Str → Option Str) (fuel s : Str)
    (h : ∀ i, mf (s.drop i) = none) : replaceScan mf fuel s = s := by
  induction fuel generalizing s with
  | nil => exact replaceScan_nilFuel mf s
  | cons f fuel ih =>
      cases s with
      | nil => exact replaceScan_nil mf f fuel
      | cons c t =>
          rw [replaceScan_cons]
          have h0 := h 0
          rw [List.drop_zero] at h0
          rw [h0]
          exact congrArg (c :: ·) (ih t (fun i => by simpa using h (i + 1)))

theorem replaceScan_append_copy (mf : Str → Option Str) (U V fuel : Str)
    (h : ∀ i, i < U.length → mf ((U ++ V).drop i) = none) :
    replaceScan mf fuel (U ++ V) = U ++ replaceScan mf (fuel.drop U.length) V := by
  induction U generalizing fuel with
  | nil => simp
  | cons u U' ih =>
      cases fuel with
      | nil =>
          rw [replaceScan_nilFuel, List.drop_nil, replaceScan_nilFuel]
      | cons f fuel' =>
          rw [List.cons_append, replaceScan_cons]
          have h0 := h 0 (by simp)
          rw [List.drop_zero, List.cons_append] at h0
          rw [h0]
          rw [List.length_cons, List.drop_succ_cons]
          have := ih fuel' (fun i hi => by
            have := h (i + 1) (by simpa using Nat.succ_lt_succ hi)
            rwa [List.cons_append, List.drop_succ_cons] at this)
          rw [this]
          rfl

theorem replaceScan_match_step (mf : Str → Option Str) (f : Char) (fuel : Str)
    (c : Char) (t rest : Str) (h : mf (c :: t) = some rest) :
    replaceScan mf (f :: fuel) (c :: t) = replaceScan mf fuel rest := by
  rw [replaceScan_cons, h]

/-!
## Inversion of the strip matchers
-/

theorem strip1End_inv (u r : Str) (h : strip1End u = some r) :
    ∃ j, strStarts litDivClose (u.drop j) = true ∧
      strStarts litWpHtmlClose (dropWs ((u.drop j).drop 6)) = true ∧
      r = (dropWs ((u.drop j).drop 6)).drop 17 := by
  induction u with
  | nil => rw [strip1End_nil] at h; cases h
  | cons c t ih =>
      rw [strip1End_cons] at h
      by_cases h1 : strStarts litDivClose (c :: t) = true
      · rw [if_pos h1] at h
        by_cases h2 : strStarts litWpHtmlClose (dropWs ((c :: t).drop 6)) = true
        · rw [if_pos h2] at h
          refine ⟨0, ?_⟩
          rw [List.drop_zero]
          exact ⟨h1, h2, (Option.some.inj h).symm⟩
        · rw [if_neg h2] at h
          obtain ⟨j, hj⟩ := ih h
          exact ⟨j + 1, by simpa using hj⟩
      · rw [if_neg h1] at h
        obtain ⟨j, hj⟩ := ih h
        exact ⟨j + 1, by simpa using hj⟩

theorem strip1Mid_inv (u r : Str) (h : strip1Mid u = some r) :
    ∃ d, (u.take d).all (fun c => !isLineTerm c) = true ∧
      strStarts litClassMarker (u.drop d) = true ∧
      strip1End ((u.drop d).drop 21) = some r := by
  induction u with
  | nil => rw [strip1Mid_nil] at h; cases h
  | cons c t ih =>
      rw [strip1Mid_cons] at h
      by_cases hm : strStarts litClassMarker (c :: t) = true
      · rw [if_pos hm] at h
        cases hend : strip1End ((c :: t).drop 21) with
        | some rest =>
            rw [hend] at h
            refine ⟨0, by simp, ?_, ?_⟩
            · rw [List.drop_zero]; exact hm
            · rw [List.drop_zero, hend]
              exact congrArg some (Option.some.inj h)
        | none =>
            rw [hend] at h
            by_cases hlt : isLineTerm c = true
            · rw [if_pos hlt] at h; cases h
            · rw [if_neg hlt] at h
              obtain ⟨d, hd1, hd2, hd3⟩ := ih h
              refine ⟨d + 1, ?_, by simpa using hd2, by simpa using hd3⟩
              rw [List.take_succ_cons, List.all_cons, Bool.and_eq_true]
              exact ⟨by simpa using hlt, hd1⟩
      · rw [if_neg hm] at h
        by_cases hlt : isLineTerm c = true
        · rw [if_pos hlt] at h; cases h
        · rw [if_neg hlt] at h
          obtain ⟨d, hd1, hd2, hd3⟩ := ih h
          refine ⟨d + 1, ?_, by simpa using hd2, by simpa using hd3⟩
          rw [List.take_succ_cons, List.all_cons, Bool.and_eq_true]
          exact ⟨by simpa using hlt, hd1⟩

theorem strip1Match_inv (s r : Str) (h : strip1Match s = some r) :
    strStarts litWpHtmlOpen s = true ∧
      strStarts litDivIdAmz (dropWs (s.drop 16)) = true ∧
      strip1Mid ((dropWs (s.drop 16)).drop 13) = some r := by
  unfold strip1Match at h
  by_cases h1 : strStarts litWpHtmlOpen s = true
  · rw [if_pos h1] at h
    by_cases h2 : strStarts litDivIdAmz (dropWs (s.drop 16)) = true
    · rw [if_pos h2] at h
      exact ⟨h1, h2, h⟩
    · rw [if_neg h2] at h; cases h
  · rw [if_neg h1] at h; cases h

theorem strip2Mid_inv (u r : Str) (h : strip2Mid u = some r) :
    ∃ d, strStarts litClassMarker (u.drop d) = true := by
  induction u with
  | nil => rw [strip2Mid_nil] at h; cases h
  | cons c t ih =>
      rw [strip2Mid_cons] at h
      by_cases hm : strStarts litClassMarker (c :: t) = true
      · exact ⟨0, by rw [List.drop_zero]; exact hm⟩
      · rw [if_neg hm] at h
        by_cases hlt : isLineTerm c = true
        · rw [if_pos hlt] at h; cases h
        · rw [if_neg hlt] at h
          obtain ⟨d, hd⟩ := ih h
          exact ⟨d + 1, by simpa using hd⟩

theorem strip2Match_inv (s r : Str) (h : strip2Match s = some r) :
    strStarts litDivIdAmz s = true ∧ strip2Mid (s.drop 13) = some r := by
  unfold strip2Match at h
  by_cases h1 : strStarts litDivIdAmz s = true
  · rw [if_pos h1] at h
    exact ⟨h1, h⟩
  · rw [if_neg h1] at h; cases h

/-- The class-attribute literal of the strip patterns decomposes as a
9-character prefix followed by the `amz-sota-box` marker. -/
theorem litClassMarker_decomp :
    litClassMarker = "\" class=\"".data ++ markerStr := by decide

theorem strStarts_append_elim (a b u : Str) (h : strStarts (a ++ b) u = true) :
    strStarts b (u.drop a.length) = true := by
  induction a generalizing u with
  | nil => simpa using h
  | cons x a' ih =>
      cases u with
      | nil => simp [strStarts] at h
      | cons c t =>
          rw [List.cons_append, strStarts, Bool.and_eq_true] at h
          rw [List.length_cons, List.drop_succ_cons]
          exact ih t h.2

theorem marker_occursAt_of_classMarker (w : Str) (j : Nat)
    (h : strStarts litClassMarker (w.drop j) = true) :
    occursAt markerStr w (j + 9) := by
  rw [litClassMarker_decomp] at h
  have := strStarts_append_elim _ markerStr (w.drop j) h
  unfold occursAt
  rw [← List.drop_drop]
  simpa using this

theorem strip1Match_marker (s r : Str) (h : strip1Match s = some r) :
    ∃ m, occursAt markerStr s m := by
  obtain ⟨-, -, hmid⟩ := strip1Match_inv s r h
  obtain ⟨d, -, hmk, -⟩ := strip1Mid_inv _ r hmid
  obtain ⟨m0, -, hdw, -, -⟩ := dropWs_spec (s.drop 16)
  rw [hdw, List.drop_drop, List.drop_drop, List.drop_drop] at hmk
  exact ⟨_, marker_occursAt_of_classMarker s _ hmk⟩

theorem strip2Match_marker (s r : Str) (h : strip2Match s = some r) :
    ∃ m, occursAt markerStr s m := by
  obtain ⟨-, hmid⟩ := strip2Match_inv s r h
  obtain ⟨d, hmk⟩ := strip2Mid_inv _ r hmid
  rw [List.drop_drop] at hmk
  exact ⟨_, marker_occursAt_of_classMarker s _ hmk⟩

theorem strip1Match_none_of_markerFree (s : Str) (h : countOcc markerStr s = 0)
    (i : Nat) : strip1Match (s.drop i) = none := by
  cases hm : strip1Match (s.drop i) with
  | none => rfl
  | some r =>
      obtain ⟨m, hocc⟩ := strip1Match_marker _ r hm
      have := countOcc_pos_of_occursAt markerStr s (i + m)
        (occursAt_drop markerStr s i m hocc)
      omega

theorem strip2Match_none_of_markerFree (s : Str) (h : countOcc markerStr s = 0)
    (i : Nat) : strip2Match (s.drop i) = none := by
  cases hm : strip2Match (s.drop i) with
  | none => rfl
  | some r =>
      obtain ⟨m, hocc⟩ := strip2Match_marker _ r hm
      have := countOcc_pos_of_occursAt markerStr s (i + m)
        (occursAt_drop markerStr s i m hocc)
      omega

/-- Both strip replaces leave a marker-free string unchanged. -/
theorem insertStrip_markerFree (s : Str) (h : countOcc markerStr s = 0) :
    insertStrip s = s := by
  unfold insertStrip
  rw [replaceScan_no_match strip1Match s s (strip1Match_none_of_markerFree s h)]
  exact replaceScan_no_match strip2Match s s (strip2Match_none_of_markerFree s h)

theorem cleanOf_markerFree (s : Str) (h : countOcc markerStr s = 0) :
    cleanOf s = s := by
  unfold cleanOf
  rw [insertStrip_markerFree s h]
  show (if s.isEmpty = true then s else s) = s
  split <;> rfl

/-- Whatever the strategy branch, `insertIntoContent` either splices the
box (surrounded by blank lines) at some index of the cleaned content, or
appends it at the end. -/
theorem insertIntoContent_shape (html box : Str) (m : InsertionMethod)
    (snip : Option Str) :
    (∃ k, insertIntoContent html box m snip =
        (cleanOf html).take k ++ nnStr ++ box ++ nnStr ++ (cleanOf html).drop k) ∨
      insertIntoContent html box m snip = cleanOf html ++ nnStr ++ box := by
  unfold insertIntoContent
  simp only [insertAt]
  repeat' split
  all_goals first
    | (right; rfl)
    | (left; exact ⟨_, rfl⟩)

/-- Remove the first (leftmost) occurrence of `p` from `s` (identity if
`p` does not occur). -/
def removeFirst (p : Str) : Str → Str
  | [] => []
  | c :: t => if strStarts p (c :: t) then (c :: t).drop p.length else c :: removeFirst p t

/-- The combined success test of the tail of the first strip pattern at
one position: `</div>` followed by whitespace and `<!-- /wp:html -->`. -/
def endCheck1 (s : Str) : Bool :=
  strStarts litDivClose s && strStarts litWpHtmlClose (dropWs (s.drop 6))

/-- `endCheck1` fails at the first `n` positions of `s`.  (Defined through
`List.rec` so kernel evaluation on concrete boxes stays lazy.) -/
def noEarlyEnd1 (n : Nat) (s : Str) : Bool :=
  List.rec (motive := fun _ => Nat → Bool) (fun _ => true)
    (fun c t ih n =>
      match n with
      | 0 => true
      | m + 1 => !endCheck1 (c :: t) && ih m) s n

theorem noEarlyEnd1_nil (n : Nat) : noEarlyEnd1 n [] = true := rfl

theorem noEarlyEnd1_zero (c : Char) (t : Str) : noEarlyEnd1 0 (c :: t) = true := rfl

theorem noEarlyEnd1_succ (m : Nat) (c : Char) (t : Str) :
    noEarlyEnd1 (m + 1) (c :: t) = (!endCheck1 (c :: t) && noEarlyEnd1 m t) := rfl

theorem noEarlyEnd1_spec (u : Str) (n : Nat) (h : noEarlyEnd1 n u = true)
    (j : Nat) (hj : j < n) : endCheck1 (u.drop j) = false := by
  induction u generalizing n j with
  | nil =>
      rw [List.drop_nil]
      decide
  | cons c t ih =>
      cases n with
      | zero => omega
      | succ m =>
          rw [noEarlyEnd1_succ, Bool.and_eq_true] at h
          cases j with
          | zero =>
              rw [List.drop_zero]
              simpa using h.1
          | succ j' => exact ih m h.2 j' (by omega)

/-- Well-formedness certificate for a rendered product box `B`: the
positions of the unique strip-pattern match inside it.  `dv` is the
`<div id="amz-` position, `o` the `" class="amz-sota-box` position, `k`
the matching `</div>`, `q` the `<!-- /wp:html -->` position; the matched
span of the first strip regex runs from index 5 (after the leading
`"\n    "`) to `q + 17`, and all conditions are decidable so a concrete
rendering can be certified by evaluation. -/
structure BoxShape (B : Str) where
  dv : Nat
  o : Nat
  k : Nat
  q : Nat
  lead : B.take 5 = "\n    ".data
  hcm : strStarts litWpHtmlOpen (B.drop 5) = true
  hdv21 : 21 ≤ dv
  hgap : ((B.drop 21).take (dv - 21)).all isWsChar = true
  hdiv : strStarts litDivIdAmz (B.drop dv) = true
  hdvo : dv + 13 ≤ o
  hnl : ((B.drop (dv + 13)).take (o - (dv + 13))).all (fun c => !isLineTerm c) = true
  hmk : strStarts litClassMarker (B.drop o) = true
  huniq : countOcc markerStr B = 1
  hdvUnique : ∀ d, d < o → d + 13 ≤ o →
      strStarts litDivIdAmz (B.drop d) = true →
      ((B.drop (d + 13)).take (o - (d + 13))).all (fun c => !isLineTerm c) = true →
      d = dv
  hok : o + 21 ≤ k
  hnoEarly : noEarlyEnd1 (k - (o + 21)) (B.drop (o + 21)) = true
  hdc : strStarts litDivClose (B.drop k) = true
  hk6q : k + 6 ≤ q
  hgap2 : ((B.drop (k + 6)).take (q - (k + 6))).all isWsChar = true
  hcl : strStarts litWpHtmlClose (B.drop q) = true
  htrail : (B.drop (q + 17)).all isWsChar = true
  htrailNl : strStarts ['\n'] (B.drop (q + 17)) = true

theorem strStarts_length_le (p u : Str) (h : strStarts p u = true) :
    p.length ≤ u.length := by
  induction p generalizing u with
  | nil => simp
  | cons x xs ih =>
      cases u with
      | nil => simp [strStarts] at h
      | cons c t =>
          rw [strStarts, Bool.and_eq_true] at h
          have := ih t h.2
          simp
          omega

theorem strStarts_drop_bound (p B : Str) (j : Nat) (hp : p ≠ [])
    (h : strStarts p (B.drop j) = true) : j + p.length ≤ B.length := by
  have h1 := strStarts_length_le p (B.drop j) h
  rw [List.length_drop] at h1
  by_cases hj : j ≤ B.length
  · omega
  · rw [List.drop_eq_nil_of_le (by omega)] at h
    cases p with
    | nil => exact absurd rfl hp
    | cons x xs => simp [strStarts] at h

namespace BoxShape

variable {B : Str}

theorem len21 (S : BoxShape B) : 21 ≤ B.length := by
  have := strStarts_drop_bound litWpHtmlOpen B 5 (by decide) S.hcm
  simpa using this

theorem o_bound (S : BoxShape B) : S.o + 21 ≤ B.length := by
  have := strStarts_drop_bound litClassMarker B S.o (by decide) S.hmk
  simpa using this

theorem k_bound (S : BoxShape B) : S.k + 6 ≤ B.length := by
  have := strStarts_drop_bound litDivClose B S.k (by decide) S.hdc
  simpa using this

theorem q_bound (S : BoxShape B) : S.q + 17 ≤ B.length := by
  have := strStarts_drop_bound litWpHtmlClose B S.q (by decide) S.hcl
  simpa using this

theorem dv_bound (S : BoxShape B) : S.dv + 13 ≤ B.length := by
  have := strStarts_drop_bound litDivIdAmz B S.dv (by decide) S.hdiv
  simpa using this

/-- A certified box starts with a newline. -/
theorem head_nl (S : BoxShape B) : ∃ w, B = '\n' :: w := by
  have h := S.lead
  cases hB : B with
  | nil => rw [hB] at h; simp at h
  | cons c t =>
      rw [hB, List.take_succ_cons] at h
      have : c = '\n' := by
        have := congrArg (fun l => l.head?) h
        simpa using this
      exact ⟨t, by rw [this]⟩

end BoxShape

theorem drop_append_drop (B t : Str) (a j : Nat) (h : a + j ≤ B.length) :
    (B.drop a ++ t).drop j = B.drop (a + j) ++ t := by
  rw [List.drop_append_of_le_length (by rw [List.length_drop]; omega), List.drop_drop]

theorem strStarts_box_restrict (p B t : Str) (j : Nat) (h : j + p.length ≤ B.length) :
    strStarts p (B.drop j ++ t) = strStarts p (B.drop j) :=
  strStarts_append_left p (B.drop j) t (by rw [List.length_drop]; omega)

theorem nthc_some_of_lt (s : Str) (i : Nat) (h : i < s.length) :
    ∃ c, nthc s i = some c := by
  unfold nthc
  cases hd : s.drop i with
  | nil =>
      have := congrArg List.length hd
      rw [List.length_drop] at this
      simp at this
      omega
  | cons c r => exact ⟨c, rfl⟩

/-- Skipping an all-whitespace segment of `B` between positions `a` and
`b`, where `B[b]` is not whitespace, also in the presence of an appended
tail. -/
theorem dropWs_segment (B t : Str) (a b : Nat) (hab : a ≤ b) (hb : b ≤ B.length)
    (hws : ((B.drop a).take (b - a)).all isWsChar = true)
    (c : Char) (hc : nthc B b = some c) (hnws : isWsChar c = false) :
    dropWs (B.drop a ++ t) = B.drop b ++ t := by
  have hsplit : B.drop a = (B.drop a).take (b - a) ++ B.drop b := by
    have h1 := List.take_append_drop (b - a) (B.drop a)
    rw [List.drop_drop] at h1
    rw [show a + (b - a) = b by omega] at h1
    exact h1.symm
  obtain ⟨r, hr⟩ : ∃ r, B.drop b = c :: r := by
    unfold nthc at hc
    cases hd : B.drop b with
    | nil => rw [hd] at hc; cases hc
    | cons c' r =>
        rw [hd] at hc
        simp at hc
        exact ⟨r, by rw [hc]⟩
  rw [hsplit, List.append_assoc, dropWs_ws_append _ _ hws, hr, List.cons_append,
    dropWs_not_ws c _ hnws]

theorem strip1End_step (c : Char) (t : Str) (h : endCheck1 (c :: t) = false) :
    strip1End (c :: t) = strip1End t := by
  by_cases h1 : strStarts litDivClose (c :: t) = true
  · have h2 : strStarts litWpHtmlClose (dropWs ((c :: t).drop 6)) = false := by
      unfold endCheck1 at h
      rwa [h1, Bool.true_and] at h
    rw [strip1End_cons, if_pos h1, if_neg (by simpa using h2)]
  · rw [strip1End_cons, if_neg h1]

theorem strip1End_skip (U : Str) (n : Nat)
    (h : ∀ j, j < n → endCheck1 (U.drop j) = false) :
    strip1End U = strip1End (U.drop n) := by
  induction n generalizing U with
  | zero => rw [List.drop_zero]
  | succ m ih =>
      cases U with
      | nil => rw [List.drop_nil]
      | cons c t =>
          have h0 : endCheck1 (c :: t) = false := by
            have := h 0 (by omega)
            rwa [List.drop_zero] at this
          rw [strip1End_step c t h0, List.drop_succ_cons]
          exact ih t (fun j hj => by
            have := h (j + 1) (by omega)
            rwa [List.drop_succ_cons] at this)

theorem strip1End_hit (V : Str) (h1 : strStarts litDivClose V = true)
    (h2 : strStarts litWpHtmlClose (dropWs (V.drop 6)) = true) :
    strip1End V = some ((dropWs (V.drop 6)).drop 17) := by
  cases V with
  | nil => simp [strStarts] at h1
  | cons c t => rw [strip1End_cons, if_pos h1, if_pos h2]

theorem nthc_q_lt (B : Str) (S : BoxShape B) : nthc B S.q = some '<' := by
  have h := strStarts_nthc litWpHtmlClose (B.drop S.q) S.hcl 0 (by decide)
  rw [nthc_drop, Nat.add_zero] at h
  rw [h]
  decide

/-- The tail matcher of the first strip pattern, run from just after the
marker of a certified box, matches exactly at the box's closing
`</div>` and returns the suffix after the closing comment. -/
theorem strip1End_box (B t : Str) (S : BoxShape B) :
    strip1End (B.drop (S.o + 21) ++ t) = some (B.drop (S.q + 17) ++ t) := by
  have hkB := S.k_bound
  have hqB := S.q_bound
  have hok := S.hok
  have hk6q := S.hk6q
  -- every position before the box's closing `</div>` fails
  have hpre : ∀ j, j < S.k - (S.o + 21) →
      endCheck1 ((B.drop (S.o + 21) ++ t).drop j) = false := by
    intro j hj
    have hdropj : (B.drop (S.o + 21) ++ t).drop j = B.drop (S.o + 21 + j) ++ t :=
      drop_append_drop B t (S.o + 21) j (by omega)
    rw [hdropj]
    have hBfalse : endCheck1 (B.drop (S.o + 21 + j)) = false := by
      have := noEarlyEnd1_spec (B.drop (S.o + 21)) (S.k - (S.o + 21)) S.hnoEarly j hj
      rwa [List.drop_drop] at this
    set pj := S.o + 21 + j with hpj
    have hpjk : pj < S.k := by omega
    unfold endCheck1 at hBfalse ⊢
    have hdivEq : strStarts litDivClose (B.drop pj ++ t) =
        strStarts litDivClose (B.drop pj) :=
      strStarts_box_restrict litDivClose B t pj (by
        have : litDivClose.length = 6 := by decide
        omega)
    by_cases hdiv : strStarts litDivClose (B.drop pj) = true
    · rw [hdiv, Bool.true_and] at hBfalse
      rw [hdivEq, hdiv, Bool.true_and]
      -- the whitespace run after `</div>` stops inside the box
      obtain ⟨m, hmlen, hmdrop, hmtake, hmstop⟩ := dropWs_spec (B.drop (pj + 6))
      have hstop_le_q : pj + 6 + m ≤ S.q := by
        by_contra hgt
        have hq_off : S.q - (pj + 6) < m := by omega
        have hcq : nthc (B.drop (pj + 6)) (S.q - (pj + 6)) = some '<' := by
          rw [nthc_drop, show pj + 6 + (S.q - (pj + 6)) = S.q by omega]
          exact nthc_q_lt B S
        have := all_take_nthc (B.drop (pj + 6)) isWsChar m hmtake
          (S.q - (pj + 6)) hq_off '<' hcq
        exact absurd this (by decide)
      obtain ⟨cm, hcm⟩ := nthc_some_of_lt B (pj + 6 + m) (by omega)
      have hcm' : nthc (B.drop (pj + 6)) m = some cm := by
        rw [nthc_drop]
        exact hcm
      have hcmws : isWsChar cm = false := hmstop cm hcm'
      have hdrop6 : (B.drop pj ++ t).drop 6 = B.drop (pj + 6) ++ t :=
        drop_append_drop B t pj 6 (by omega)
      rw [hdrop6]
      have hdw : dropWs (B.drop (pj + 6) ++ t) = B.drop (pj + 6 + m) ++ t := by
        refine dropWs_segment B t (pj + 6) (pj + 6 + m) (by omega) (by omega) ?_ cm hcm hcmws
        rw [show pj + 6 + m - (pj + 6) = m by omega]
        exact hmtake
      rw [hdw]
      have hclEq : strStarts litWpHtmlClose (B.drop (pj + 6 + m) ++ t) =
          strStarts litWpHtmlClose (B.drop (pj + 6 + m)) :=
        strStarts_box_restrict litWpHtmlClose B t (pj + 6 + m) (by
          have : litWpHtmlClose.length = 17 := by decide
          omega)
      rw [hclEq]
      have hBside : dropWs ((B.drop pj).drop 6) = B.drop (pj + 6 + m) := by
        rw [List.drop_drop, hmdrop, List.drop_drop]
      rw [hBside] at hBfalse
      exact hBfalse
    · rw [hdivEq]
      rw [Bool.not_eq_true] at hdiv
      rw [hdiv]
      rfl
  have hskip := strip1End_skip (B.drop (S.o + 21) ++ t) (S.k - (S.o + 21)) hpre
  rw [hskip, drop_append_drop B t (S.o + 21) (S.k - (S.o + 21)) (by omega),
    show S.o + 21 + (S.k - (S.o + 21)) = S.k by omega]
  have h1 : strStarts litDivClose (B.drop S.k ++ t) = true :=
    strStarts_append_of_starts _ _ _ S.hdc
  have hdrop6 : (B.drop S.k ++ t).drop 6 = B.drop (S.k + 6) ++ t :=
    drop_append_drop B t S.k 6 (by omega)
  have hdw : dropWs (B.drop (S.k + 6) ++ t) = B.drop S.q ++ t := by
    refine dropWs_segment B t (S.k + 6) S.q (by omega) (by omega) S.hgap2
      '<' (nthc_q_lt B S) (by decide)
  have h2 : strStarts litWpHtmlClose (dropWs ((B.drop S.k ++ t).drop 6)) = true := by
    rw [hdrop6, hdw]
    exact strStarts_append_of_starts _ _ _ S.hcl
  rw [strip1End_hit (B.drop S.k ++ t) h1 h2, hdrop6, hdw,
    drop_append_drop B t S.q 17 (by omega)]

theorem strip1Mid_step (c : Char) (t : Str)
    (hmk : strStarts litClassMarker (c :: t) = false) (hlt : isLineTerm c = false) :
    strip1Mid (c :: t) = strip1Mid t := by
  rw [strip1Mid_cons, if_neg (by simp [hmk]), if_neg (by simp [hlt])]

theorem strip1Mid_skip (U : Str) (n : Nat)
    (h : ∀ j, j < n → strStarts litClassMarker (U.drop j) = false ∧
      ∀ c, nthc U j = some c → isLineTerm c = false) :
    strip1Mid U = strip1Mid (U.drop n) := by
  induction n generalizing U with
  | zero => rw [List.drop_zero]
  | succ m ih =>
      cases U with
      | nil => rw [List.drop_nil]
      | cons c t =>
          obtain ⟨hmk, hhd⟩ := h 0 (by omega)
          rw [List.drop_zero] at hmk
          rw [strip1Mid_step c t hmk (hhd c rfl), List.drop_succ_cons]
          exact ih t (fun j hj => by
            have := h (j + 1) (by omega)
            rwa [List.drop_succ_cons] at this)

theorem strip1Mid_hit (V r : Str) (hm : strStarts litClassMarker V = true)
    (he : strip1End (V.drop 21) = some r) : strip1Mid V = some r := by
  cases V with
  | nil => simp [strStarts] at hm
  | cons c t => rw [strip1Mid_cons, if_pos hm, he]

theorem nthc_dv_lt (B : Str) (S : BoxShape B) : nthc B S.dv = some '<' := by
  have h := strStarts_nthc litDivIdAmz (B.drop S.dv) S.hdiv 0 (by decide)
  rw [nthc_drop, Nat.add_zero] at h
  rw [h]
  decide

/-- In a certified box no `" class="amz-sota-box` occurrence starts
before position `o`. -/
theorem box_no_marker_before (B : Str) (S : BoxShape B) (p : Nat) (hp : p < S.o) :
    strStarts litClassMarker (B.drop p) = false := by
  by_contra hcon
  have htrue := Bool.of_not_eq_false hcon
  have h1 : occursAt markerStr B (p + 9) := marker_occursAt_of_classMarker B p htrue
  have h2 : occursAt markerStr B (S.o + 9) := marker_occursAt_of_classMarker B S.o S.hmk
  have := countOcc_unique_pos markerStr B (by decide) S.huniq _ _ h1 h2
  omega

theorem strip1Mid_box (B t : Str) (S : BoxShape B) :
    strip1Mid (B.drop (S.dv + 13) ++ t) = some (B.drop (S.q + 17) ++ t) := by
  have hoB := S.o_bound
  have hdvo := S.hdvo
  have hskip : strip1Mid (B.drop (S.dv + 13) ++ t) =
      strip1Mid ((B.drop (S.dv + 13) ++ t).drop (S.o - (S.dv + 13))) := by
    refine strip1Mid_skip _ _ (fun j hj => ?_)
    have hdropj : (B.drop (S.dv + 13) ++ t).drop j = B.drop (S.dv + 13 + j) ++ t :=
      drop_append_drop B t (S.dv + 13) j (by omega)
    constructor
    · rw [hdropj]
      rw [strStarts_box_restrict litClassMarker B t (S.dv + 13 + j) (by
        have : litClassMarker.length = 21 := by decide
        omega)]
      exact box_no_marker_before B S (S.dv + 13 + j) (by omega)
    · intro c hc
      rw [nthc_append_left _ _ j (by rw [List.length_drop]; omega)] at hc
      have := all_take_nthc (B.drop (S.dv + 13)) (fun c => !isLineTerm c)
        (S.o - (S.dv + 13)) S.hnl j hj c hc
      simpa using this
  rw [hskip, drop_append_drop B t (S.dv + 13) (S.o - (S.dv + 13)) (by omega),
    show S.dv + 13 + (S.o - (S.dv + 13)) = S.o by omega]
  refine strip1Mid_hit _ _ (strStarts_append_of_starts _ _ _ S.hmk) ?_
  rw [drop_append_drop B t S.o 21 (by omega)]
  exact strip1End_box B t S

/-- The first strip pattern, applied at the comment position of a
certified box (with anything appended), matches and leaves exactly the
trailing whitespace of the box plus the appended tail. -/
theorem strip1Match_box (B t : Str) (S : BoxShape B) :
    strip1Match (B.drop 5 ++ t) = some (B.drop (S.q + 17) ++ t) := by
  have hlen := S.len21
  have hdvB := S.dv_bound
  have h1 : strStarts litWpHtmlOpen (B.drop 5 ++ t) = true :=
    strStarts_append_of_starts _ _ _ S.hcm
  have hd16 : (B.drop 5 ++ t).drop 16 = B.drop 21 ++ t := by
    have := drop_append_drop B t 5 16 (by omega)
    simpa using this
  have hdw : dropWs (B.drop 21 ++ t) = B.drop S.dv ++ t :=
    dropWs_segment B t 21 S.dv S.hdv21 (by omega) S.hgap '<'
      (nthc_dv_lt B S) (by decide)
  have h2 : strStarts litDivIdAmz (B.drop S.dv ++ t) = true :=
    strStarts_append_of_starts _ _ _ S.hdiv
  unfold strip1Match
  rw [if_pos h1]
  show (if strStarts litDivIdAmz (dropWs ((B.drop 5 ++ t).drop 16)) then
      strip1Mid ((dropWs ((B.drop 5 ++ t).drop 16)).drop 13) else none) = _
  rw [hd16, hdw, if_pos h2, drop_append_drop B t S.dv 13 (by omega)]
  exact strip1Mid_box B t S

/-- The tail of the haystack after the box: either nothing (append
branch) or a blank-line separator followed by marker-free content
(insert branch). -/
def TailOK (t : Str) : Prop :=
  t = [] ∨ ∃ Y, t = nnStr ++ Y ∧ countOcc markerStr Y = 0

theorem s_assoc (X B t : Str) :
    X ++ nnStr ++ B ++ t = X ++ '\n' :: ('\n' :: (B ++ t)) := by
  simp [nnStr]

theorem s_drop_B (X B t : Str) (j : Nat) (hj : j ≤ B.length) :
    (X ++ nnStr ++ B ++ t).drop (X.length + 2 + j) = B.drop j ++ t := by
  rw [s_assoc]
  rw [show X.length + 2 + j = X.length + (j + 1 + 1) by omega, List.drop_append,
    List.drop_succ_cons, List.drop_succ_cons]
  exact List.drop_append_of_le_length hj

theorem s_nthc_B (X B t : Str) (j : Nat) (hj : j < B.length) :
    nthc (X ++ nnStr ++ B ++ t) (X.length + 2 + j) = nthc B j := by
  unfold nthc
  rw [show List.drop (X.length + 2 + j) (X ++ nnStr ++ B ++ t) =
      B.drop j ++ t from s_drop_B X B t j (by omega)]
  cases hd : B.drop j with
  | nil =>
      have := congrArg List.length hd
      rw [List.length_drop] at this
      simp at this
      omega
  | cons c r => rfl

theorem s_nthc_nl (X B t : Str) :
    nthc (X ++ nnStr ++ B ++ t) (X.length + 1) = some '\n' := by
  rw [s_assoc]
  rw [nthc_append_right X _ 1]
  rfl

theorem strStarts_false_head (p : Str) (c : Char) (w : Str) (ca : Char)
    (hpa : nthc p 0 = some ca) (hne : (c = ca) → False) :
    strStarts p (c :: w) = false := by
  cases hm : strStarts p (c :: w) with
  | false => rfl
  | true =>
      have h0 := strStarts_nthc p (c :: w) hm 0 (by
        cases p with
        | nil => simp [nthc] at hpa
        | cons x xs => simp)
      rw [hpa] at h0
      have : c = ca := by simpa [nthc] using h0
      exact (hne this).elim

theorem countOcc_marker_nl_cons (w : Str) :
    countOcc markerStr ('\n' :: w) = countOcc markerStr w := by
  rw [countOcc_cons,
    strStarts_false_head markerStr '\n' w 'a' (by decide) (by decide)]
  simp

/-- The haystack `X ++ "\n\n" ++ B ++ t` contains the marker exactly
once when `X` and the tail are marker-free and `B` contains it once. -/
theorem countOcc_s (X B t : Str) (hX : countOcc markerStr X = 0)
    (hB : countOcc markerStr B = 1) (ht : TailOK t) :
    countOcc markerStr (X ++ nnStr ++ B ++ t) = 1 := by
  have hm1 : markerStr ≠ [] := by decide
  have hm2 : '\n' ∉ markerStr := by decide
  rw [s_assoc]
  rw [countOcc_append_nl markerStr X _ hm1 hm2, hX, countOcc_marker_nl_cons,
    countOcc_marker_nl_cons, Nat.zero_add]
  rcases ht with rfl | ⟨Y, rfl, hY⟩
  · rw [List.append_nil, hB]
  · show countOcc markerStr (B ++ ('\n' :: ('\n' :: Y))) = 1
    rw [countOcc_append_nl markerStr B _ hm1 hm2, hB, countOcc_marker_nl_cons,
      countOcc_marker_nl_cons, hY]

theorem occursAt_marker_s (X B t : Str) (S : BoxShape B) :
    occursAt markerStr (X ++ nnStr ++ B ++ t) (X.length + 2 + (S.o + 9)) := by
  unfold occursAt
  rw [s_drop_B X B t (S.o + 9) (by have := S.o_bound; omega)]
  exact strStarts_append_of_starts _ _ _ (marker_occursAt_of_classMarker B S.o S.hmk)

/-- The first strip pattern cannot match at any haystack position
strictly before the box's `<!-- wp:html -->` comment. -/
theorem no_match_before (X B t : Str) (S : BoxShape B)
    (hX : countOcc markerStr X = 0) (ht : TailOK t)
    (p : Nat) (hp : p < X.length + 2 + 5) :
    strip1Match ((X ++ nnStr ++ B ++ t).drop p) = none := by
  cases hmt : strip1Match ((X ++ nnStr ++ B ++ t).drop p) with
  | none => rfl
  | some r =>
    exfalso
    obtain ⟨h1, h2, h3⟩ := strip1Match_inv _ r hmt
    obtain ⟨m, hmlen, hmdrop, hmtake, hmstop⟩ :=
      dropWs_spec (((X ++ nnStr ++ B ++ t).drop p).drop 16)
    have hW : ((X ++ nnStr ++ B ++ t).drop p).drop 16 =
        (X ++ nnStr ++ B ++ t).drop (p + 16) := by rw [List.drop_drop]
    have hdw2 : dropWs (((X ++ nnStr ++ B ++ t).drop p).drop 16) =
        (X ++ nnStr ++ B ++ t).drop (p + 16 + m) := by
      rw [hmdrop, hW, List.drop_drop]
    rw [hdw2] at h2 h3
    rw [hW] at hmtake
    rw [List.drop_drop] at h3
    obtain ⟨d, hd1, hd2, -⟩ := strip1Mid_inv _ r h3
    rw [List.drop_drop] at hd2
    set D := p + 16 + m with hDdef
    have hocc1 : occursAt markerStr (X ++ nnStr ++ B ++ t) (D + 13 + d + 9) :=
      marker_occursAt_of_classMarker _ _ hd2
    have hocc2 := occursAt_marker_s X B t S
    have hcount := countOcc_s X B t hX S.huniq ht
    have hpin : D + 13 + d + 9 = X.length + 2 + (S.o + 9) :=
      countOcc_unique_pos markerStr _ (by decide) hcount _ _ hocc1 hocc2
    have hnlpos := s_nthc_nl X B t
    have hlt5 : nthc (X ++ nnStr ++ B ++ t) (X.length + 2 + 5) = some '<' := by
      rw [s_nthc_B X B t 5 (by have := S.len21; omega)]
      have h := strStarts_nthc litWpHtmlOpen (B.drop 5) S.hcm 0 (by decide)
      rw [nthc_drop, Nat.add_zero] at h
      rw [h]
      decide
    have hoB := S.o_bound
    have hdv21 := S.hdv21
    -- pin the `<div id="amz-` position at the box's own
    have hDpin : D = X.length + 2 + S.dv := by
      rcases Nat.lt_or_ge D (X.length + 2) with hD | hD
      · exfalso
        rcases Nat.lt_or_ge (D + 13) (X.length + 2) with hD13 | hD13
        · have hi0 : X.length + 1 - (D + 13) < d := by omega
          have hc : nthc ((X ++ nnStr ++ B ++ t).drop (D + 13))
              (X.length + 1 - (D + 13)) = some '\n' := by
            rw [nthc_drop, show D + 13 + (X.length + 1 - (D + 13)) = X.length + 1
              by omega]
            exact hnlpos
          have := all_take_nthc _ (fun c => !isLineTerm c) d hd1 _ hi0 '\n' hc
          exact absurd this (by decide)
        · have hj : X.length + 1 - D < 13 := by omega
          have hc : nthc ((X ++ nnStr ++ B ++ t).drop D) (X.length + 1 - D) =
              some '\n' := by
            rw [nthc_drop, show D + (X.length + 1 - D) = X.length + 1 by omega]
            exact hnlpos
          have hmem := strStarts_char_mem litDivIdAmz _ h2 (X.length + 1 - D)
            (by rw [show litDivIdAmz.length = 13 from by decide]; exact hj) '\n' hc
          exact absurd hmem (by decide)
      · have hdo : (D - (X.length + 2)) + 13 + d = S.o := by omega
        have hdropD : (X ++ nnStr ++ B ++ t).drop D =
            B.drop (D - (X.length + 2)) ++ t := by
          have h := s_drop_B X B t (D - (X.length + 2)) (by omega)
          rwa [show X.length + 2 + (D - (X.length + 2)) = D by omega] at h
        have hdiv' : strStarts litDivIdAmz (B.drop (D - (X.length + 2))) = true := by
          rw [hdropD] at h2
          rw [strStarts_box_restrict litDivIdAmz B t _ (by
            rw [show litDivIdAmz.length = 13 from by decide]
            omega)] at h2
          exact h2
        have hnl' : ((B.drop ((D - (X.length + 2)) + 13)).take
            (S.o - ((D - (X.length + 2)) + 13))).all (fun c => !isLineTerm c) = true := by
          have hdrop13 : (X ++ nnStr ++ B ++ t).drop (D + 13) =
              B.drop ((D - (X.length + 2)) + 13) ++ t := by
            have h := s_drop_B X B t ((D - (X.length + 2)) + 13) (by omega)
            rwa [show X.length + 2 + ((D - (X.length + 2)) + 13) = D + 13 by omega] at h
          rw [hdrop13] at hd1
          rw [List.take_append_of_le_length
            (show d ≤ (B.drop ((D - (X.length + 2)) + 13)).length by
              rw [List.length_drop]; omega)] at hd1
          rw [show S.o - ((D - (X.length + 2)) + 13) = d by omega]
          exact hd1
        have := S.hdvUnique (D - (X.length + 2)) (by omega) (by omega) hdiv' hnl'
        omega
    -- now pin the comment position itself: contradiction since p ≠ B0 + 5
    rcases Nat.lt_or_ge p (X.length + 2) with hpB | hpB
    · rcases Nat.lt_or_ge (X.length + 2 + 5) (p + 16) with hpa | hpa
      · have hj : X.length + 1 - p < 16 := by omega
        have hc : nthc ((X ++ nnStr ++ B ++ t).drop p) (X.length + 1 - p) =
            some '\n' := by
          rw [nthc_drop, show p + (X.length + 1 - p) = X.length + 1 by omega]
          exact hnlpos
        have hmem := strStarts_char_mem litWpHtmlOpen _ h1 (X.length + 1 - p)
          (by rw [show litWpHtmlOpen.length = 16 from by decide]; exact hj) '\n' hc
        exact absurd hmem (by decide)
      · have hi1 : X.length + 2 + 5 - (p + 16) < m := by omega
        have hc : nthc ((X ++ nnStr ++ B ++ t).drop (p + 16))
            (X.length + 2 + 5 - (p + 16)) = some '<' := by
          rw [nthc_drop, show p + 16 + (X.length + 2 + 5 - (p + 16)) =
            X.length + 2 + 5 by omega]
          exact hlt5
        have := all_take_nthc _ isWsChar m hmtake _ hi1 '<' hc
        exact absurd this (by decide)
    · have hj : p - (X.length + 2) < 5 := by omega
      have hchar : nthc (X ++ nnStr ++ B ++ t) p = nthc B (p - (X.length + 2)) := by
        have h := s_nthc_B X B t (p - (X.length + 2)) (by have := S.len21; omega)
        rwa [show X.length + 2 + (p - (X.length + 2)) = p by omega] at h
      have hheadp := strStarts_nthc litWpHtmlOpen _ h1 0 (by decide)
      rw [nthc_drop, Nat.add_zero] at hheadp
      have hltp : nthc (X ++ nnStr ++ B ++ t) p = some '<' := by
        rw [hheadp]
        decide
      obtain ⟨cb, hcb⟩ := nthc_some_of_lt B (p - (X.length + 2))
        (by have := S.len21; omega)
      have hcb' : cb = '<' := by
        rw [hchar, hcb] at hltp
        simpa using hltp
      have htk : nthc (B.take 5) (p - (X.length + 2)) = some cb := by
        have hsp : B = B.take 5 ++ B.drop 5 := (List.take_append_drop 5 B).symm
        rw [hsp] at hcb
        rwa [nthc_append_left _ _ _ (by
          rw [List.length_take]
          have := S.len21
          omega)] at hcb
      rw [S.lead] at htk
      have hmem := nthc_mem _ _ _ htk
      have hallws : ("\n    ".data).all isWsChar = true := by decide
      have hws := List.all_eq_true.mp hallws cb hmem
      rw [hcb'] at hws
      exact absurd hws (by decide)

theorem allWs_marker_zero (u : Str) (h : u.all isWsChar = true) :
    countOcc markerStr u = 0 := by
  rw [show markerStr = 'a' :: "mz-sota-box".data from by decide]
  exact allWs_countOcc_zero 'a' ("mz-sota-box".data) u h (by decide)

theorem countOcc_marker_cons_ne (c : Char) (w : Str) (hne : (c = 'a') → False) :
    countOcc markerStr (c :: w) = countOcc markerStr w := by
  rw [countOcc_cons, strStarts_false_head markerStr c w 'a' (by decide) hne]
  simp

/-- The suffix left of the box after a strip match, plus the tail, is
marker-free. -/
theorem countOcc_rest_zero (B t : Str) (S : BoxShape B) (ht : TailOK t) :
    countOcc markerStr (B.drop (S.q + 17) ++ t) = 0 := by
  rcases ht with rfl | ⟨Y, rfl, hY⟩
  · rw [List.append_nil]
    exact allWs_marker_zero _ S.htrail
  · show countOcc markerStr (B.drop (S.q + 17) ++ ('\n' :: ('\n' :: Y))) = 0
    rw [countOcc_append_nl _ _ _ (by decide) (by decide),
      allWs_marker_zero _ S.htrail, countOcc_marker_nl_cons, countOcc_marker_nl_cons,
      hY]

/-- The result of stripping the box out of the haystack is marker-free. -/
theorem countOcc_R_zero (X B t : Str) (S : BoxShape B)
    (hX : countOcc markerStr X = 0) (ht : TailOK t) :
    countOcc markerStr ((X ++ nnStr ++ B.take 5) ++ (B.drop (S.q + 17) ++ t)) = 0 := by
  rw [S.lead, List.append_assoc, List.append_assoc]
  show countOcc markerStr
    (X ++ '\n' :: ('\n' :: ('\n' :: (' ' :: (' ' :: (' ' :: (' ' ::
      (B.drop (S.q + 17) ++ t)))))))) = 0
  rw [countOcc_append_nl _ _ _ (by decide) (by decide), hX,
    countOcc_marker_nl_cons, countOcc_marker_nl_cons, countOcc_marker_nl_cons,
    countOcc_marker_cons_ne ' ' _ (by decide), countOcc_marker_cons_ne ' ' _ (by decide),
    countOcc_marker_cons_ne ' ' _ (by decide), countOcc_marker_cons_ne ' ' _ (by decide),
    countOcc_rest_zero B t S ht]

/-- Both strip replaces turn `X ++ "\n\n" ++ B ++ t` (box certified,
rest marker-free) into the same haystack with the matched span of `B`
removed: only the box's leading `"\n    "` and trailing whitespace
survive. -/
theorem insertStrip_boxed (X B t : Str) (S : BoxShape B)
    (hX : countOcc markerStr X = 0) (ht : TailOK t) :
    insertStrip (X ++ nnStr ++ B ++ t) =
      (X ++ nnStr ++ B.take 5) ++ (B.drop (S.q + 17) ++ t) := by
  have hsplit : X ++ nnStr ++ B ++ t =
      (X ++ nnStr ++ B.take 5) ++ (B.drop 5 ++ t) := by
    have e1 : X ++ nnStr ++ B ++ t = (X ++ nnStr) ++ (B ++ t) := by
      rw [List.append_assoc]
    have e2 : B ++ t = B.take 5 ++ (B.drop 5 ++ t) := by
      rw [← List.append_assoc, List.take_append_drop]
    rw [e1, e2, ← List.append_assoc]
  have hlenU : (X ++ nnStr ++ B.take 5).length = X.length + 2 + 5 := by
    have := S.len21
    simp [nnStr, List.length_append, List.length_take]
    omega
  have hR0 := countOcc_R_zero X B t S hX ht
  have hrest0 := countOcc_rest_zero B t S ht
  have hpass1 : replaceScan strip1Match (X ++ nnStr ++ B ++ t) (X ++ nnStr ++ B ++ t) =
      (X ++ nnStr ++ B.take 5) ++ (B.drop (S.q + 17) ++ t) := by
    conv_lhs => rw [hsplit]
    rw [replaceScan_append_copy strip1Match _ _ _ (fun i hi => by
      rw [← hsplit]
      exact no_match_before X B t S hX ht i (by rwa [hlenU] at hi))]
    congr 1
    rw [List.drop_left]
    cases hV : B.drop 5 with
    | nil =>
        have hcm := S.hcm
        rw [hV] at hcm
        simp [strStarts] at hcm
    | cons c bt =>
        have hVc : B.drop 5 ++ t = c :: (bt ++ t) := by rw [hV, List.cons_append]
        have hm : strip1Match (c :: (bt ++ t)) = some (B.drop (S.q + 17) ++ t) := by
          rw [← hVc]
          exact strip1Match_box B t S
        rw [List.cons_append,
          replaceScan_match_step strip1Match c (bt ++ t) c (bt ++ t) _ hm]
        exact replaceScan_no_match strip1Match (bt ++ t) _
          (strip1Match_none_of_markerFree _ hrest0)
  unfold insertStrip
  rw [hpass1]
  exact replaceScan_no_match strip2Match _ _ (strip2Match_none_of_markerFree _ hR0)

theorem cleanOf_boxed (X B t : Str) (S : BoxShape B)
    (hX : countOcc markerStr X = 0) (ht : TailOK t) :
    cleanOf (X ++ nnStr ++ B ++ t) =
      (X ++ nnStr ++ B.take 5) ++ (B.drop (S.q + 17) ++ t) := by
  unfold cleanOf
  show (if (insertStrip (X ++ nnStr ++ B ++ t)).isEmpty = true
      then X ++ nnStr ++ B ++ t else insertStrip (X ++ nnStr ++ B ++ t)) = _
  rw [insertStrip_boxed X B t S hX ht]
  rw [if_neg (by
    intro hcon
    rw [List.isEmpty_iff] at hcon
    have := congrArg List.length hcon
    simp [nnStr] at this)]

theorem occursAt_trans (p q s : Str) (j μ : Nat) (hp : p ≠ [])
    (hq : occursAt q s j) (hpq : occursAt p q μ) : occursAt p s (j + μ) := by
  unfold occursAt at hq hpq ⊢
  have hdecomp := strStarts_decomp q (s.drop j) hq
  have hμle : μ ≤ q.length := by
    by_contra hgt
    rw [List.drop_eq_nil_of_le (by omega)] at hpq
    cases p with
    | nil => exact hp rfl
    | cons x xs => simp [strStarts] at hpq
  rw [show s.drop (j + μ) = (s.drop j).drop μ by rw [List.drop_drop], hdecomp,
    List.drop_append_of_le_length hμle]
  exact strStarts_append_of_starts _ _ _ hpq

theorem countOcc_eq_one_of_unique (p s : Str) (hp : p ≠ []) (i : Nat)
    (hi : occursAt p s i) (hu : ∀ j, occursAt p s j → j = i) : countOcc p s = 1 := by
  induction s generalizing i with
  | nil =>
      unfold occursAt at hi
      rw [List.drop_nil] at hi
      cases p with
      | nil => exact absurd rfl hp
      | cons x xs => simp [strStarts] at hi
  | cons c t ih =>
      rw [countOcc_cons]
      by_cases h0 : strStarts p (c :: t) = true
      · have hi0 : (0 : Nat) = i := hu 0 (by simpa [occursAt] using h0)
        rw [if_pos h0]
        have ht0 : countOcc p t = 0 := by
          rw [countOcc_eq_zero_iff p t hp]
          intro j hj
          have := hu (j + 1) ((occursAt_cons_succ p c t j).mpr hj)
          omega
        omega
      · rw [if_neg h0]
        obtain ⟨i', rfl⟩ : ∃ i', i = i' + 1 := by
          cases i with
          | zero =>
              unfold occursAt at hi
              rw [List.drop_zero] at hi
              exact absurd hi h0
          | succ i' => exact ⟨i', rfl⟩
        have := ih i' ((occursAt_cons_succ p c t i').mp hi) (fun j hj => by
          have := hu (j + 1) ((occursAt_cons_succ p c t j).mpr hj)
          omega)
        omega

theorem removeFirst_unique (p s : Str) (hp : p ≠ []) (i : Nat)
    (hi : occursAt p s i) (hu : ∀ j, occursAt p s j → j = i) :
    removeFirst p s = s.take i ++ s.drop (i + p.length) := by
  induction s generalizing i with
  | nil =>
      unfold occursAt at hi
      rw [List.drop_nil] at hi
      cases p with
      | nil => exact absurd rfl hp
      | cons x xs => simp [strStarts] at hi
  | cons c t ih =>
      by_cases h0 : strStarts p (c :: t) = true
      · have hi0 : (0 : Nat) = i := hu 0 (by simpa [occursAt] using h0)
        rw [removeFirst, if_pos h0, ← hi0, List.take_zero, List.nil_append,
          Nat.zero_add]
      · obtain ⟨i', rfl⟩ : ∃ i', i = i' + 1 := by
          cases i with
          | zero =>
              unfold occursAt at hi
              rw [List.drop_zero] at hi
              exact absurd hi h0
          | succ i' => exact ⟨i', rfl⟩
        rw [removeFirst, if_neg h0]
        rw [ih i' ((occursAt_cons_succ p c t i').mp hi) (fun j hj => by
          have := hu (j + 1) ((occursAt_cons_succ p c t j).mpr hj)
          omega)]
        rw [List.take_succ_cons, show i' + 1 + p.length = (i' + p.length) + 1 by omega,
          List.drop_succ_cons, List.cons_append]

theorem strStarts_refl (p : Str) : strStarts p p = true := by
  induction p with
  | nil => rfl
  | cons x xs ih =>
      rw [strStarts, ih]
      simp

theorem strStarts_self_append (p w : Str) : strStarts p (p ++ w) = true :=
  strStarts_append_of_starts p p w (strStarts_refl p)

theorem allWs_filter_nil (u : Str) (h : u.all isWsChar = true) :
    u.filter (fun c => !isWsChar c) = [] := by
  induction u with
  | nil => rfl
  | cons c t ih =>
      rw [List.all_cons, Bool.and_eq_true] at h
      rw [List.filter_cons]
      rw [if_neg (by simp [h.1])]
      exact ih h.2

/-- Inserting a certified box `boxB` into a marker-free haystack `W`
(either splice or append branch) yields exactly one marker, exactly one
occurrence of `boxB`, and removing that occurrence leaves `W` up to
whitespace. -/
theorem final_props (W boxB C0 r : Str) (SB : BoxShape boxB)
    (hW0 : countOcc markerStr W = 0)
    (hfilter : W.filter (fun c => !isWsChar c) = C0.filter (fun c => !isWsChar c))
    (hr : (∃ k, r = W.take k ++ nnStr ++ boxB ++ nnStr ++ W.drop k) ∨
      r = W ++ nnStr ++ boxB) :
    countOcc markerStr r = 1 ∧ countOcc boxB r = 1 ∧
      (removeFirst boxB r).filter (fun c => !isWsChar c) =
        C0.filter (fun c => !isWsChar c) := by
  have hBne : boxB ≠ [] := by
    obtain ⟨w, hw⟩ := SB.head_nl
    rw [hw]
    simp
  have hμ : occursAt markerStr boxB (SB.o + 9) :=
    marker_occursAt_of_classMarker boxB SB.o SB.hmk
  have hnnf : nnStr.filter (fun c => !isWsChar c) = [] := by decide
  rcases hr with ⟨k, hk⟩ | happ
  · have hA0 : countOcc markerStr (W.take k) = 0 :=
      countOcc_take_zero markerStr W (by decide) hW0 k
    have hV0 : countOcc markerStr (W.drop k) = 0 :=
      countOcc_drop_zero markerStr W (by decide) hW0 k
    have hform1 : r = (W.take k ++ nnStr ++ boxB) ++ (nnStr ++ W.drop k) := by
      rw [hk, List.append_assoc]
    have hform2 : r = (W.take k ++ nnStr) ++ (boxB ++ (nnStr ++ W.drop k)) := by
      rw [hform1, List.append_assoc]
    have hcount : countOcc markerStr r = 1 := by
      rw [hform1]
      exact countOcc_s (W.take k) boxB (nnStr ++ W.drop k) hA0 SB.huniq
        (Or.inr ⟨W.drop k, rfl, hV0⟩)
    have hocc : occursAt boxB r (W.take k ++ nnStr).length := by
      unfold occursAt
      rw [hform2, List.drop_left]
      exact strStarts_self_append boxB _
    have huniq : ∀ j, occursAt boxB r j → j = (W.take k ++ nnStr).length := by
      intro j hj
      have h1 : occursAt markerStr r (j + (SB.o + 9)) :=
        occursAt_trans markerStr boxB r j _ (by decide) hj hμ
      have h2 : occursAt markerStr r ((W.take k ++ nnStr).length + (SB.o + 9)) :=
        occursAt_trans markerStr boxB r _ _ (by decide) hocc hμ
      have := countOcc_unique_pos markerStr r (by decide) hcount _ _ h1 h2
      omega
    refine ⟨hcount, countOcc_eq_one_of_unique boxB r hBne _ hocc huniq, ?_⟩
    rw [removeFirst_unique boxB r hBne _ hocc huniq]
    have htake : r.take (W.take k ++ nnStr).length = W.take k ++ nnStr := by
      rw [hform2, List.take_left]
    have hdrop : r.drop ((W.take k ++ nnStr).length + boxB.length) =
        nnStr ++ W.drop k := by
      rw [hform1, show (W.take k ++ nnStr).length + boxB.length =
        ((W.take k ++ nnStr) ++ boxB).length by simp [Nat.add_assoc], List.drop_left]
    rw [htake, hdrop, List.filter_append, List.filter_append, List.filter_append,
      hnnf, List.append_nil, List.nil_append, ← List.filter_append,
      List.take_append_drop]
    exact hfilter
  · have hcount : countOcc markerStr r = 1 := by
      have := countOcc_s W boxB [] hW0 SB.huniq (Or.inl rfl)
      rw [List.append_nil] at this
      rw [happ]
      exact this
    have hocc : occursAt boxB r (W ++ nnStr).length := by
      unfold occursAt
      rw [happ, show W ++ nnStr ++ boxB = (W ++ nnStr) ++ boxB from rfl,
        List.drop_left]
      exact strStarts_refl boxB
    have huniq : ∀ j, occursAt boxB r j → j = (W ++ nnStr).length := by
      intro j hj
      have h1 : occursAt markerStr r (j + (SB.o + 9)) :=
        occursAt_trans markerStr boxB r j _ (by decide) hj hμ
      have h2 : occursAt markerStr r ((W ++ nnStr).length + (SB.o + 9)) :=
        occursAt_trans markerStr boxB r _ _ (by decide) hocc hμ
      have := countOcc_unique_pos markerStr r (by decide) hcount _ _ h1 h2
      omega
    refine ⟨hcount, countOcc_eq_one_of_unique boxB r hBne _ hocc huniq, ?_⟩
    rw [removeFirst_unique boxB r hBne _ hocc huniq]
    have htake : r.take (W ++ nnStr).length = W ++ nnStr := by
      rw [happ, show W ++ nnStr ++ boxB = (W ++ nnStr) ++ boxB from rfl,
        List.take_left]
    have hdrop : r.drop ((W ++ nnStr).length + boxB.length) = [] := by
      rw [happ, show (W ++ nnStr).length + boxB.length =
        (W ++ nnStr ++ boxB).length by simp [Nat.add_assoc], List.drop_length]
    rw [htake, hdrop, List.append_nil, List.filter_append, hnnf, List.append_nil]
    exact hfilter

/-- **C1** (amended): for content in which the `amz-sota-box` structural
marker does not occur, two certified product-box renderings `boxA` and
`boxB`, any strategy and any context snippet, the double insert
`insertIntoContent (insertIntoContent C boxA s _) boxB s _` contains
exactly one product-box fragment instance (the marker occurs exactly
once), that instance is `boxB`'s rendering (`boxB` occurs exactly once
as a substring), and removing that one occurrence leaves exactly the
original content `C` up to whitespace. -/
theorem insertIntoContent_idempotent (C boxA boxB : Str) (m : InsertionMethod)
    (snip : Option Str) (hC : countOcc markerStr C = 0)
    (SA : BoxShape boxA) (SB : BoxShape boxB) :
    countOcc markerStr
        (insertIntoContent (insertIntoContent C boxA m snip) boxB m snip) = 1 ∧
      countOcc boxB
        (insertIntoContent (insertIntoContent C boxA m snip) boxB m snip) = 1 ∧
      (removeFirst boxB
          (insertIntoContent (insertIntoContent C boxA m snip) boxB m snip)).filter
        (fun c => !isWsChar c) = C.filter (fun c => !isWsChar c) := by
  have hclean1 : cleanOf C = C := cleanOf_markerFree C hC
  obtain ⟨X, t, hr1, hXfree, htOK, hfilt⟩ :
      ∃ X t, insertIntoContent C boxA m snip = X ++ nnStr ++ boxA ++ t ∧
        countOcc markerStr X = 0 ∧ TailOK t ∧
        X.filter (fun c => !isWsChar c) ++ t.filter (fun c => !isWsChar c) =
          C.filter (fun c => !isWsChar c) := by
    rcases insertIntoContent_shape C boxA m snip with ⟨k, hk⟩ | happ
    · rw [hclean1] at hk
      refine ⟨C.take k, nnStr ++ C.drop k, by rw [hk, List.append_assoc],
        countOcc_take_zero markerStr C (by decide) hC k,
        Or.inr ⟨C.drop k, rfl, countOcc_drop_zero markerStr C (by decide) hC k⟩, ?_⟩
      rw [List.filter_append,
        show nnStr.filter (fun c => !isWsChar c) = [] from by decide,
        List.nil_append, ← List.filter_append, List.take_append_drop]
    · rw [hclean1] at happ
      exact ⟨C, [], by rw [happ, List.append_nil], hC, Or.inl rfl, by
        rw [List.filter_nil, List.append_nil]⟩
  have hW : cleanOf (insertIntoContent C boxA m snip) =
      (X ++ nnStr ++ boxA.take 5) ++ (boxA.drop (SA.q + 17) ++ t) := by
    rw [hr1]
    exact cleanOf_boxed X boxA t SA hXfree htOK
  have hW0 : countOcc markerStr (cleanOf (insertIntoContent C boxA m snip)) = 0 := by
    rw [hW]
    exact countOcc_R_zero X boxA t SA hXfree htOK
  have hfilter : (cleanOf (insertIntoContent C boxA m snip)).filter
      (fun c => !isWsChar c) = C.filter (fun c => !isWsChar c) := by
    rw [hW, List.filter_append, List.filter_append, List.filter_append,
      List.filter_append, SA.lead,
      show ("\n    ".data).filter (fun c => !isWsChar c) = [] from by decide,
      show nnStr.filter (fun c => !isWsChar c) = [] from by decide,
      allWs_filter_nil _ SA.htrail]
    simp only [List.append_nil, List.nil_append]
    exact hfilt
  exact final_props (cleanOf (insertIntoContent C boxA m snip)) boxB C
    (insertIntoContent (insertIntoContent C boxA m snip) boxB m snip) SB hW0 hfilter
    (insertIntoContent_shape (insertIntoContent C boxA m snip) boxB m snip)

/-- Splitting a long `List.drop` into nested shorter drops keeps the
evaluation stack shallow. -/
theorem drop_chunk (s : Str) (a b c n : Nat) (h : a + (b + c) = n) :
    s.drop n = ((s.drop a).drop b).drop c := by
  rw [List.drop_drop, List.drop_drop, h]

theorem noEarlyEnd1_split (n₁ n₂ : Nat) (s : Str) :
    noEarlyEnd1 (n₁ + n₂) s =
      (noEarlyEnd1 n₁ s && noEarlyEnd1 n₂ (s.drop n₁)) := by
  induction s generalizing n₁ with
  | nil => rw [List.drop_nil, noEarlyEnd1_nil, noEarlyEnd1_nil, noEarlyEnd1_nil]; rfl
  | cons c t ih =>
      cases n₁ with
      | zero =>
          rw [Nat.zero_add, noEarlyEnd1_zero, List.drop_zero, Bool.true_and]
      | succ m =>
          rw [show m + 1 + n₂ = (m + n₂) + 1 by omega, noEarlyEnd1_succ,
            noEarlyEnd1_succ, ih m, List.drop_succ_cons, Bool.and_assoc]

set_option maxRecDepth 10000

set_option maxHeartbeats 4000000

/-- A minimal product: every optional datum absent. -/
def prodMin : ProductDetails :=
  { asin := [], title := "T".data, price := [], imageUrl := [], rating := 0,
    prime := false, description := none, pros := none, cons := none,
    award := none, verdict := none, specs := none, lastUpdated := none,
    url := none, schema := none, contextSnippet := none }

/-- A concrete rendering of `generateProductBoxHtml` (random id suffix
empty). -/
def boxMin1 : Str := generateProductBoxHtml prodMin [] false []

/-- Certificate that `boxMin1` is a well-formed box (every condition
checked by evaluation). -/
def shapeMin1 : BoxShape boxMin1 :=
  { dv := 26, o := 39, k := 6059, q := 6070,
    lead := by rfl, hcm := by rfl, hdv21 := by decide, hgap := by rfl,
    hdiv := by rfl, hdvo := by decide, hnl := by rfl, hmk := by rfl,
    huniq := by rfl, hdvUnique := by decide, hok := by decide,
    hnoEarly := by
      rw [show (6059 - (39 + 21) : Nat) = 2000 + (2000 + 1999) from by norm_num,
        noEarlyEnd1_split, noEarlyEnd1_split]
      rfl,
    hdc := by rw [drop_chunk boxMin1 2000 2000 2059 6059 (by norm_num)]; rfl,
    hk6q := by decide,
    hgap2 := by rw [drop_chunk boxMin1 2000 2000 2065 (6059 + 6) (by norm_num)]; rfl,
    hcl := by rw [drop_chunk boxMin1 2000 2000 2070 6070 (by norm_num)]; rfl,
    htrail := by rw [drop_chunk boxMin1 2000 2000 2087 (6070 + 17) (by norm_num)]; rfl,
    htrailNl := by
      rw [drop_chunk boxMin1 2000 2000 2087 (6070 + 17) (by norm_num)]
      rfl }

/-- Content that contains the literal text `amz-sota-box` without being
a product box. -/
def cexContentC1 : Str := "<p>amz-sota-box</p>".data

/-- Witness content for the amended claim: ordinary marker-free HTML. -/
def witContentC1 : Str := "<p>hello</p>".data

/-- **C1** counterexample: the claim quantifies over every content
string, but for content that itself contains the text `amz-sota-box`
(e.g. an article discussing the plugin), the double insert yields two
occurrences of the structural marker, not exactly one fragment instance:
the strip regexes anchor on `<!-- wp:html -->`/`<div id="amz-` and
never remove the plain-text occurrence, and each insert adds a box whose
marker is counted together with it. -/
theorem insertIntoContent_idempotent_cex :
    countOcc markerStr
        (insertIntoContent (insertIntoContent cexContentC1 boxMin1 .top none)
          boxMin1 .top none) = 2 ∧ (2 : Nat) ≠ 1 :=
  ⟨by rfl, by decide⟩

/-- Witness for the amended C1: concrete marker-free content and a
concrete certified rendering (used for both inserts), with every
hypothesis discharged by evaluation. -/
theorem insertIntoContent_idempotent_witness :
    countOcc markerStr witContentC1 = 0 ∧
      (countOcc markerStr
          (insertIntoContent (insertIntoContent witContentC1 boxMin1 .top none)
            boxMin1 .top none) = 1 ∧
        countOcc boxMin1
          (insertIntoContent (insertIntoContent witContentC1 boxMin1 .top none)
            boxMin1 .top none) = 1 ∧
        (removeFirst boxMin1
            (insertIntoContent (insertIntoContent witContentC1 boxMin1 .top none)
              boxMin1 .top none)).filter (fun c => !isWsChar c) =
          witContentC1.filter (fun c => !isWsChar c)) :=
  ⟨by rfl, insertIntoContent_idempotent witContentC1 boxMin1 boxMin1 .top none
    (by rfl) shapeMin1 shapeMin1⟩

end AmzPilot
